import Mathlib

/-!
# kimchi: orchestration core

A shallow embedding of `internal/app` (mode.go, state.go, messages.go, app.go),
`internal/window/commitlist.go` and `internal/watcher/watcher.go`, followed by
the properties proved about it.

Conventions of the embedding:

* Go `int` values are `Int`; Go `%` is truncated remainder (`Int.tmod`).
* A Go `error` is its text; a nilable `error` is `Option String`.
* A Go pointer that may be nil is an `Option`.
* A Go slice is a `List`; the nil slice is `[]`.
* A Go multi-value return `(v, err)` is the pair `(v, err)`.
* A `tea.Cmd` closure built by `App` is a constructor of `Cmd`; it reads the
  `App` when it is run (`runCmd`), as the closure reads `a.state` through the
  captured pointer.
-/

namespace Kimchi

/-! ## Collaborator types (packages `git`, `github`) -/

/-- Modelled from the spec: `git.DiffMode` is declared in package `git`, which is
not among the sources; the two constants are the ones `AppMode.DiffMode` returns
(working-tree diff and branch diff). -/
inductive DiffMode where
  | DiffModeWorking
  | DiffModeBranch
  deriving DecidableEq, Repr

/-- Modelled from the spec: `git.FileViewMode` is declared in package `git`; the
three constants are the ones `AppMode.FileViewMode` returns (changed files, all
files, doc files). -/
inductive FileViewMode where
  | FileViewChanged
  | FileViewAll
  | FileViewDocs
  deriving DecidableEq, Repr

/-- Modelled from the spec: `git.Commit` is declared in package `git`; `Hash` and
`Subject` are the fields `CommitList.formatCommit` reads. -/
structure Commit where
  Hash : String
  Subject : String
  deriving DecidableEq, Repr

/-- Modelled from the spec: `git.FileStatus` is declared in package `git`; a file
status entry is a path with its status text. No function embedded here reads its
fields. -/
structure FileStatus where
  Path : String
  Status : String
  deriving DecidableEq, Repr

/-- Modelled from the spec: `github.PRInfo` is declared in package `github`;
`Comments` and `ReviewComments` are the fields `renderStatusBar` reads. -/
structure PRInfo where
  Comments : List String
  ReviewComments : List String
  deriving DecidableEq, Repr

/-! ## config.go: window and modal names, timing -/

def WindowFileList : String := "filelist"
def WindowCommitList : String := "commitlist"
def WindowDiffView : String := "diffview"
def WindowFileView : String := "fileview"
def WindowHelp : String := "help"
def ModalHelp : String := "help"

/-- The value of `config.PRPollInterval`, in seconds. -/
def PRPollInterval : Nat := 60

/-! ## mode.go -/

/-- The Go type `AppMode` (`type AppMode int`). -/
structure AppMode where
  val : Int
  deriving DecidableEq, Repr

def ModeChangedWorking : AppMode := ⟨0⟩
def ModeChangedBranch : AppMode := ⟨1⟩
def ModeBrowse : AppMode := ⟨2⟩
def ModeDocs : AppMode := ⟨3⟩

def ModeCount : Int := 4

/-- The four declared modes, in declaration order. -/
def allModes : List AppMode :=
  [ModeChangedWorking, ModeChangedBranch, ModeBrowse, ModeDocs]

def AppMode.IsChangedMode (m : AppMode) : Bool :=
  m == ModeChangedWorking || m == ModeChangedBranch

def AppMode.DiffMode (m : AppMode) : DiffMode :=
  if m = ModeChangedWorking then DiffMode.DiffModeWorking
  else DiffMode.DiffModeBranch

def AppMode.FileViewMode (m : AppMode) : FileViewMode :=
  if m = ModeBrowse then FileViewMode.FileViewAll
  else if m = ModeDocs then FileViewMode.FileViewDocs
  else FileViewMode.FileViewChanged

/-- The method `AppMode.Next`: `AppMode((int(m) + 1) % ModeCount)`. The sum is
taken in `Int`; a wrap of the 64-bit sum can only happen at the largest `int`,
where the wrapped and the unwrapped sum have the same remainder by 4. -/
def AppMode.Next (m : AppMode) : AppMode :=
  ⟨(m.val + 1).tmod ModeCount⟩

inductive SelectionType where
  | SelectionNone
  | SelectionFile
  | SelectionFolder
  | SelectionCommit
  deriving DecidableEq, Repr

/-- The struct `Selection`; its field `Type` is written `Type_`. -/
structure Selection where
  Type_ : SelectionType
  FilePath : String
  FolderPath : String
  Children : List String
  Commit : Option Commit
  deriving DecidableEq, Repr

def Selection.Clear (_s : Selection) : Selection :=
  { Type_ := SelectionType.SelectionNone
    FilePath := ""
    FolderPath := ""
    Children := []
    Commit := none }

def Selection.SelectFile (_s : Selection) (path : String) : Selection :=
  { Type_ := SelectionType.SelectionFile
    FilePath := path
    FolderPath := ""
    Children := []
    Commit := none }

def Selection.SelectFolder (_s : Selection) (path : String)
    (children : List String) : Selection :=
  { Type_ := SelectionType.SelectionFolder
    FilePath := ""
    FolderPath := path
    Children := children
    Commit := none }

def Selection.SelectCommit (_s : Selection) (commit : Option Kimchi.Commit) :
    Selection :=
  { Type_ := SelectionType.SelectionCommit
    FilePath := ""
    FolderPath := ""
    Children := []
    Commit := commit }

/-! ## state.go -/

structure State where
  Mode : AppMode
  Selection : Selection
  Files : List FileStatus
  SelectedIndex : Int
  DiffContent : String
  Branch : String
  BaseBranch : String
  DiffAdded : Int
  DiffRemoved : Int
  FocusedWindow : String
  ActiveModal : String
  PR : Option PRInfo
  Error : String
  deriving DecidableEq, Repr

/-- The zero value of `Selection`. -/
def Selection.zero : Selection :=
  { Type_ := SelectionType.SelectionNone
    FilePath := ""
    FolderPath := ""
    Children := []
    Commit := none }

/-- The function `NewState`: every field not named keeps its zero value. -/
def NewState : State :=
  { Mode := ModeChangedBranch
    Selection := Selection.zero
    Files := []
    SelectedIndex := 0
    DiffContent := ""
    Branch := ""
    BaseBranch := ""
    DiffAdded := 0
    DiffRemoved := 0
    FocusedWindow := WindowFileList
    ActiveModal := ""
    PR := none
    Error := "" }

def State.SetMode (s : State) (mode : AppMode) : State :=
  { s with
    Mode := mode
    Selection := s.Selection.Clear
    SelectedIndex := 0 }

def State.CycleMode (s : State) : State :=
  s.SetMode s.Mode.Next

def State.SetFiles (s : State) (files : List FileStatus) : State :=
  let s1 := { s with Files := files }
  if s1.SelectedIndex ≥ (files.length : Int) then { s1 with SelectedIndex := 0 }
  else s1

def State.ToggleModal (s : State) (name : String) : State :=
  if s.ActiveModal = name then { s with ActiveModal := "" }
  else { s with ActiveModal := name }

def State.CloseModal (s : State) : State :=
  { s with ActiveModal := "" }

/-- The search loop of `CycleWindow`: the index of the first entry equal to
`focused`, counted from `i`; `0` (the initial `currentIdx`) when there is none. -/
def findCurrentIdx : List String → String → Int → Int
  | [], _, _ => 0
  | w :: ws, focused, i => if w = focused then i else findCurrentIdx ws focused (i + 1)

/-- The index computed by `CycleWindow` before it reads `windows[currentIdx]`. -/
def cycleIdx (windows : List String) (focused : String) (reverse : Bool) : Int :=
  let currentIdx := findCurrentIdx windows focused 0
  let n : Int := windows.length
  if reverse then (currentIdx - 1 + n).tmod n
  else (currentIdx + 1).tmod n

/-- The method `State.CycleWindow`. The index read is always in range
(`cycleIdx_lt`), so the default of `getD` is never used. -/
def State.CycleWindow (s : State) (windows : List String) (reverse : Bool) : State :=
  if windows.length = 0 then s
  else { s with
    FocusedWindow := windows.getD (cycleIdx windows s.FocusedWindow reverse).toNat "" }

/-! ## messages.go -/

/-- The message types of messages.go, with the two library messages `Update`
distinguishes: `tea.WindowSizeMsg` and `tea.KeyMsg` (a key message is the text
`msg.String()` that `key.Matches` compares), and `tea.QuitMsg`, the result of
`tea.Quit`. `ErrorMsg` carries the text of a non-nil `error`: every `ErrorMsg`
built in app.go is built under `err != nil`. -/
inductive Msg where
  | WindowSizeMsg (Width Height : Int)
  | KeyMsg (key : String)
  | FileSelectedMsg (Path : String)
  | FolderSelectedMsg (Path : String) (Children : List String)
  | CommitSelectedMsg (Commit : Commit)
  | FilesLoadedMsg (Files : List FileStatus)
  | ContentLoadedMsg (Content : String)
  | CommitsLoadedMsg (Commits : List Commit)
  | BranchInfoMsg (Branch BaseBranch : String)
  | DiffStatsMsg (Added Removed : Int)
  | PRLoadedMsg (PR : Option PRInfo) (Err : Option String)
  | ErrorMsg (Err : String)
  | RefreshMsg
  | GitChangedMsg
  | PRPollTickMsg
  | QuitMsg
  deriving DecidableEq, Repr

/-- The one-shot commands (`tea.Cmd`) that app.go builds. A command value
returned by `Update` is the list of the commands in it: `nil` is `[]`, a single
command `c` is `[c]`, and `tea.Batch(c1, ..., cn)` is `[c1, ..., cn]`.

* `loadBranchInfo` ... `loadPR`: the closures returned by the methods of the
  same names; each reads the `App` when run.
* `Tick d m`: `tea.Tick(d, fn)` where `fn` returns `m` (`d` in seconds).
* `Quit`: `tea.Quit`.
* `ExecProcess argv m`: `tea.ExecProcess(exec.Command(argv...), fn)` where `fn`
  returns `m`.
* `fileListOnSelect`, `commitListOnSelect`: the closures returned by the
  selection callbacks that `New` installs on the two lists. -/
inductive Cmd where
  | loadBranchInfo
  | loadFiles
  | loadCommits
  | loadContent
  | loadDiffStats
  | loadPR
  | Tick (seconds : Nat) (msg : Msg)
  | Quit
  | ExecProcess (argv : List String) (onExit : Msg)
  | fileListOnSelect (index : Int) (path : String)
  | commitListOnSelect (commit : Commit)
  deriving DecidableEq, Repr

/-! ## window package: preview content, commit list, absent windows -/

/-- Modelled from the spec: the preview kinds of package `window`
(`window.PreviewEmpty`, ...), named in `computePreview`; their declaration is not
among the sources. -/
inductive PreviewType where
  | PreviewEmpty
  | PreviewFileContent
  | PreviewFileDiff
  | PreviewFolderDiff
  | PreviewCommitSummary
  deriving DecidableEq, Repr

/-- Modelled from the spec: `window.PreviewContent`, with the fields that
`computePreview` sets (field `Type` is written `Type_`); a field not set in a
literal has its zero value. -/
structure PreviewContent where
  Type_ : PreviewType
  Content : String
  FilePath : String
  FolderPath : String
  Commit : Option Commit
  PR : Option PRInfo
  deriving DecidableEq, Repr

/-- The struct `CommitList` of commitlist.go with the fields of its embedded
`Base` (`name`, `focused`); the `styles` field is presentation only and is left
out. -/
structure CommitList where
  name : String
  focused : Bool
  commits : List Commit
  cursor : Int
  width : Int
  height : Int
  deriving DecidableEq, Repr

def NewCommitList : CommitList :=
  { name := "commitlist", focused := false, commits := [], cursor := 0,
    width := 0, height := 0 }

def CommitList.SetFocus (c : CommitList) (focused : Bool) : CommitList :=
  { c with focused := focused }

def CommitList.SetCommits (c : CommitList) (commits : List Commit) : CommitList :=
  let c1 := { c with commits := commits }
  if c1.cursor ≥ (commits.length : Int) then { c1 with cursor := 0 } else c1

/-- The method `CommitList.Update`: the window is read-only and returns no command. -/
def CommitList.Update (c : CommitList) (_msg : Msg) : CommitList × List Cmd :=
  (c, [])

/-- The parts of packages `window` and `layout` that app.go calls and that are
not among the sources, taken as parameters: the file list, the diff view, the
file view and the layout manager, each an arbitrary type with the methods that
app.go uses, and `CommitList.SelectedCommit`, which app.go calls but
commitlist.go does not contain. -/
structure WindowImpl where
  FileList : Type
  DiffView : Type
  FileView : Type
  Layout : Type
  fileListSetFocus : FileList → Bool → FileList
  fileListSetFiles : FileList → List FileStatus → FileList
  fileListSetPR : FileList → Option PRInfo → FileList
  fileListSetViewMode : FileList → FileViewMode → FileList
  fileListUpdate : FileList → Msg → FileList × List Cmd
  fileListIsFolderSelected : FileList → Bool
  fileListSelectedChildren : FileList → List String
  diffViewSetFocus : DiffView → Bool → DiffView
  diffViewSetPR : DiffView → Option PRInfo → DiffView
  diffViewSetPreview : DiffView → PreviewContent → DiffView
  diffViewUpdate : DiffView → Msg → DiffView × List Cmd
  diffViewGetSelectedLocation : DiffView → String × Int
  fileViewSetFocus : FileView → Bool → FileView
  fileViewSetContent : FileView → String → String → FileView
  fileViewUpdate : FileView → Msg → FileView × List Cmd
  fileViewGetFilePath : FileView → String
  fileViewGetSelectedLine : FileView → Int
  layoutResize : Layout → Int → Int → Layout
  commitListSelectedCommit : CommitList → Option Commit

/-- The effects `Update` performs itself: the clipboard write of `handleYank`
(its `error` result) and the `EDITOR` environment variable. -/
structure Env where
  clipboardWriteAll : String → Option String
  EDITOR : String

/-! ## app.go: the application model -/

/-- The struct `App`: the state, the windows, the region-to-window map
(`assignments`; a key that is not in the map reads `none`) and the dimensions.
The collaborator clients are passed to the tasks when they run; `styles`,
`windows`, `help`, `watcher` and `program` are not read by `Update`. -/
structure App (W : WindowImpl) where
  state : State
  fileList : W.FileList
  commitList : CommitList
  diffView : W.DiffView
  fileView : W.FileView
  layout : W.Layout
  assignments : String → Option String
  width : Int
  height : Int
  statusMessage : String

/-- The call `key.Matches(msg, binding)` for an enabled binding with the given
keys: the text of the key message is one of them. -/
def keyMatches (key : String) (keys : List String) : Bool :=
  keys.contains key

/-! The keys of the bindings of `config.DefaultKeyMap` that app.go consults. -/

def DefaultKeyMap.Tab : List String := ["tab"]
def DefaultKeyMap.ShiftTab : List String := ["shift+tab"]
def DefaultKeyMap.Escape : List String := ["esc"]
def DefaultKeyMap.Quit : List String := ["q"]
def DefaultKeyMap.Refresh : List String := ["r"]
def DefaultKeyMap.Yank : List String := ["y"]
def DefaultKeyMap.OpenEditor : List String := ["o"]
def DefaultKeyMap.Help : List String := ["?"]
def DefaultKeyMap.CycleMode : List String := ["m"]
def DefaultKeyMap.Mode1 : List String := ["1"]
def DefaultKeyMap.Mode2 : List String := ["2"]
def DefaultKeyMap.Mode3 : List String := ["3"]
def DefaultKeyMap.Mode4 : List String := ["4"]

/-- The Go map assignment `m[k] = v`. -/
def mapSet (m : String → Option String) (k v : String) : String → Option String :=
  fun x => if x = k then some v else m x

/-- The `assignments` map literal of `New`. -/
def initialAssignments : String → Option String :=
  mapSet (mapSet (mapSet (mapSet (mapSet (mapSet (fun _ => none)
    "left-top" WindowFileList) "left-bottom" WindowCommitList)
    "right" WindowDiffView) "top" WindowFileList)
    "middle" WindowCommitList) "bottom" WindowDiffView

/-- The function `New`, given the freshly built absent windows and layout. -/
def New (W : WindowImpl) (fileList : W.FileList) (diffView : W.DiffView)
    (fileView : W.FileView) (layout : W.Layout) : App W :=
  { state := NewState
    fileList := W.fileListSetFocus fileList true
    commitList := NewCommitList
    diffView := diffView
    fileView := fileView
    layout := layout
    assignments := initialAssignments
    width := 0
    height := 0
    statusMessage := "" }

variable {W : WindowImpl}

def App.Init (_a : App W) : List Cmd :=
  [Cmd.loadBranchInfo, Cmd.loadFiles, Cmd.loadCommits, Cmd.loadDiffStats,
   Cmd.loadPR, Cmd.Tick PRPollInterval Msg.PRPollTickMsg]

def App.schedulePRPoll (_a : App W) : Cmd :=
  Cmd.Tick PRPollInterval Msg.PRPollTickMsg

def App.updateFocus (a : App W) : App W :=
  { a with
    fileList := W.fileListSetFocus a.fileList (a.state.FocusedWindow == WindowFileList)
    commitList := a.commitList.SetFocus (a.state.FocusedWindow == WindowCommitList)
    diffView := W.diffViewSetFocus a.diffView (a.state.FocusedWindow == WindowDiffView)
    fileView := W.fileViewSetFocus a.fileView (a.state.FocusedWindow == WindowFileView) }

def App.getPreviewWindow (a : App W) : String :=
  if a.state.Mode = ModeBrowse then WindowFileView else WindowDiffView

def App.applyModeChange (a : App W) : App W :=
  let a1 := { a with
    fileList := W.fileListSetViewMode a.fileList a.state.Mode.FileViewMode }
  let previewWindow := a1.getPreviewWindow
  let a2 := { a1 with
    assignments := mapSet (mapSet a1.assignments "right" previewWindow)
      "bottom" previewWindow }
  let a3 := { a2 with state := { a2.state with FocusedWindow := WindowFileList } }
  a3.updateFocus

def App.computePreview (a : App W) : PreviewContent :=
  match a.state.Selection.Type_ with
  | SelectionType.SelectionCommit =>
    { Type_ := PreviewType.PreviewCommitSummary, Content := "", FilePath := "",
      FolderPath := "", Commit := a.state.Selection.Commit, PR := a.state.PR }
  | SelectionType.SelectionFile =>
    if a.state.Mode = ModeBrowse then
      { Type_ := PreviewType.PreviewFileContent, Content := a.state.DiffContent,
        FilePath := a.state.Selection.FilePath, FolderPath := "", Commit := none,
        PR := none }
    else
      { Type_ := PreviewType.PreviewFileDiff, Content := a.state.DiffContent,
        FilePath := a.state.Selection.FilePath, FolderPath := "", Commit := none,
        PR := none }
  | SelectionType.SelectionFolder =>
    { Type_ := PreviewType.PreviewFolderDiff, Content := a.state.DiffContent,
      FilePath := "", FolderPath := a.state.Selection.FolderPath, Commit := none,
      PR := none }
  | SelectionType.SelectionNone =>
    { Type_ := PreviewType.PreviewEmpty, Content := "", FilePath := "",
      FolderPath := "", Commit := none, PR := none }

def App.updatePreview (a : App W) : App W :=
  let preview := a.computePreview
  if a.state.Mode = ModeBrowse ∧ preview.Type_ = PreviewType.PreviewFileContent then
    { a with fileView := W.fileViewSetContent a.fileView preview.Content preview.FilePath }
  else
    { a with diffView := W.diffViewSetPreview a.diffView preview }

def App.cycleFocus (a : App W) (reverse : Bool) : App W :=
  let previewWindow := a.getPreviewWindow
  let windowOrder := [WindowFileList, WindowCommitList, previewWindow]
  let prevWindow := a.state.FocusedWindow
  let a1 := { a with state := a.state.CycleWindow windowOrder reverse }
  let a2 := a1.updateFocus
  if a2.state.FocusedWindow = WindowCommitList ∧ prevWindow ≠ WindowCommitList then
    match W.commitListSelectedCommit a2.commitList with
    | some commit =>
      let a3 := { a2 with
        state := { a2.state with
          Selection := a2.state.Selection.SelectCommit (some commit) } }
      a3.updatePreview
    | none => a2
  else if prevWindow = WindowCommitList ∧ a2.state.FocusedWindow ≠ WindowCommitList then
    let a3 := { a2 with
      state := { a2.state with Selection := a2.state.Selection.Clear } }
    a3.updatePreview
  else a2

/-- The text that `handleYank` copies for a location reported by a viewer:
`path:line` when both are set, the path when only the path is set. -/
def yankLocation (filePath : String) (lineNum : Int) : String :=
  if filePath ≠ "" ∧ lineNum > 0 then filePath ++ ":" ++ toString lineNum
  else if filePath ≠ "" then filePath
  else ""

def App.handleYank (env : Env) (a : App W) : App W × List Cmd :=
  let toCopy : String :=
    if a.state.FocusedWindow = WindowDiffView then
      let loc := W.diffViewGetSelectedLocation a.diffView
      yankLocation loc.1 loc.2
    else if a.state.FocusedWindow = WindowFileView then
      yankLocation (W.fileViewGetFilePath a.fileView) (W.fileViewGetSelectedLine a.fileView)
    else if a.state.Selection.FilePath ≠ "" then a.state.Selection.FilePath
    else ""
  if toCopy ≠ "" then
    match env.clipboardWriteAll toCopy with
    | none => ({ a with statusMessage := "Copied: " ++ toCopy }, [])
    | some _ => (a, [])
  else (a, [])

def App.handleOpenEditor (env : Env) (a : App W) : App W × List Cmd :=
  let loc : String × Int :=
    if a.state.FocusedWindow = WindowDiffView then
      W.diffViewGetSelectedLocation a.diffView
    else if a.state.FocusedWindow = WindowFileView then
      (W.fileViewGetFilePath a.fileView, W.fileViewGetSelectedLine a.fileView)
    else (a.state.Selection.FilePath, 1)
  let filePath := loc.1
  let lineNum := loc.2
  if filePath = "" then (a, [])
  else
    let editor := if env.EDITOR = "" then "vim" else env.EDITOR
    let argv :=
      if lineNum > 1 then [editor, "+" ++ toString lineNum, filePath]
      else [editor, filePath]
    (a, [Cmd.ExecProcess argv Msg.RefreshMsg])

def App.delegateToFocused (a : App W) (msg : Msg) : App W × List Cmd :=
  if a.state.FocusedWindow = WindowFileList then
    let r := W.fileListUpdate a.fileList msg
    ({ a with fileList := r.1 }, r.2)
  else if a.state.FocusedWindow = WindowCommitList then
    let r := a.commitList.Update msg
    ({ a with commitList := r.1 }, r.2)
  else if a.state.FocusedWindow = WindowDiffView then
    let r := W.diffViewUpdate a.diffView msg
    ({ a with diffView := r.1 }, r.2)
  else if a.state.FocusedWindow = WindowFileView then
    let r := W.fileViewUpdate a.fileView msg
    ({ a with fileView := r.1 }, r.2)
  else (a, [])

def App.handleKey (env : Env) (a : App W) (key : String) : App W × List Cmd :=
  if keyMatches key DefaultKeyMap.Quit then (a, [Cmd.Quit])
  else if keyMatches key DefaultKeyMap.Help then
    ({ a with state := a.state.ToggleModal ModalHelp }, [])
  else if keyMatches key DefaultKeyMap.Refresh then
    (a, [Cmd.loadFiles, Cmd.loadContent, Cmd.loadDiffStats])
  else if keyMatches key DefaultKeyMap.CycleMode then
    (App.applyModeChange { a with state := a.state.CycleMode }, [Cmd.loadFiles])
  else if keyMatches key DefaultKeyMap.Mode1 then
    (App.applyModeChange { a with state := a.state.SetMode ModeChangedWorking },
      [Cmd.loadFiles])
  else if keyMatches key DefaultKeyMap.Mode2 then
    (App.applyModeChange { a with state := a.state.SetMode ModeChangedBranch },
      [Cmd.loadFiles])
  else if keyMatches key DefaultKeyMap.Mode3 then
    (App.applyModeChange { a with state := a.state.SetMode ModeBrowse },
      [Cmd.loadFiles])
  else if keyMatches key DefaultKeyMap.Mode4 then
    (App.applyModeChange { a with state := a.state.SetMode ModeDocs },
      [Cmd.loadFiles])
  else if keyMatches key DefaultKeyMap.Tab then (a.cycleFocus true, [])
  else if keyMatches key DefaultKeyMap.ShiftTab then (a.cycleFocus false, [])
  else if keyMatches key DefaultKeyMap.Yank then a.handleYank env
  else if keyMatches key DefaultKeyMap.OpenEditor then a.handleOpenEditor env
  else a.delegateToFocused (Msg.KeyMsg key)

def App.handleModalKey (a : App W) (key : String) : App W × List Cmd :=
  if keyMatches key DefaultKeyMap.Quit then (a, [Cmd.Quit])
  else if keyMatches key DefaultKeyMap.Help || keyMatches key DefaultKeyMap.Escape then
    ({ a with state := a.state.CloseModal }, [])
  else (a, [])

/-- The method `App.Update`: the application after the message and the commands
issued. A message type without a case (`RefreshMsg`, `tea.QuitMsg`) reaches the
final `return a, nil`. -/
def App.Update (env : Env) (a : App W) (msg : Msg) : App W × List Cmd :=
  match msg with
  | Msg.WindowSizeMsg width height =>
    ({ a with width := width, height := height,
              layout := W.layoutResize a.layout width height }, [])
  | Msg.KeyMsg key =>
    if a.state.ActiveModal ≠ "" then a.handleModalKey key
    else a.handleKey env key
  | Msg.FileSelectedMsg path =>
    ({ a with state := { a.state with Selection := a.state.Selection.SelectFile path } },
      [Cmd.loadContent])
  | Msg.FolderSelectedMsg path children =>
    ({ a with
       state := { a.state with
         Selection := a.state.Selection.SelectFolder path children } },
      [Cmd.loadContent])
  | Msg.CommitSelectedMsg commit =>
    (App.updatePreview { a with
       state := { a.state with
         Selection := a.state.Selection.SelectCommit (some commit) } }, [])
  | Msg.FilesLoadedMsg files =>
    ({ a with state := a.state.SetFiles files,
              fileList := W.fileListSetFiles a.fileList files }, [])
  | Msg.ContentLoadedMsg content =>
    (App.updatePreview { a with state := { a.state with DiffContent := content } }, [])
  | Msg.CommitsLoadedMsg commits =>
    ({ a with commitList := a.commitList.SetCommits commits }, [])
  | Msg.BranchInfoMsg branch baseBranch =>
    ({ a with state := { a.state with Branch := branch, BaseBranch := baseBranch } }, [])
  | Msg.DiffStatsMsg added removed =>
    ({ a with state := { a.state with DiffAdded := added, DiffRemoved := removed } }, [])
  | Msg.PRLoadedMsg pr err =>
    let st := if err = none then { a.state with PR := pr }
              else { a.state with PR := none }
    ({ a with state := st,
              diffView := W.diffViewSetPR a.diffView st.PR,
              fileList := W.fileListSetPR a.fileList st.PR }, [])
  | Msg.ErrorMsg err =>
    ({ a with state := { a.state with Error := err } }, [])
  | Msg.GitChangedMsg =>
    (a, [Cmd.loadBranchInfo, Cmd.loadFiles, Cmd.loadCommits, Cmd.loadContent,
         Cmd.loadDiffStats, Cmd.loadPR])
  | Msg.PRPollTickMsg => (a, [Cmd.loadPR, a.schedulePRPoll])
  | Msg.RefreshMsg => (a, [])
  | Msg.QuitMsg => (a, [])

/-! ## app.go: data loading commands -/

/-- Modelled from the spec: the repository client (`git.Client`, declared in
package `git`), with the methods app.go calls; each returns its Go result
values, the `error` last. -/
structure GitClient where
  CurrentBranch : String × Option String
  BaseBranch : String × Option String
  Status : DiffMode → List FileStatus × Option String
  ListAllFiles : List FileStatus × Option String
  ListDocFiles : List FileStatus × Option String
  Diff : String → DiffMode → String × Option String
  ReadFile : String → String × Option String
  Log : List Commit × Option String
  DiffStats : DiffMode → Int × Int × Option String

/-- Modelled from the spec: the remote metadata client (`github.Client`), with
the one method app.go calls. -/
structure GhClient where
  GetPRForBranch : Option PRInfo × Option String

/-- A call made on a collaborator, with its arguments. -/
inductive Request where
  | CurrentBranch
  | BaseBranch
  | Status (mode : DiffMode)
  | ListAllFiles
  | ListDocFiles
  | Diff (path : String) (mode : DiffMode)
  | ReadFile (path : String)
  | Log
  | DiffStats (mode : DiffMode)
  | GetPRForBranch
  deriving DecidableEq, Repr

/-- What running a command gives: the collaborator calls it made, in order,
and its one result message. -/
structure TaskResult where
  requests : List Request
  msg : Msg
  deriving DecidableEq, Repr

def loadBranchInfo (git : GitClient) : TaskResult :=
  let branch := git.CurrentBranch.1
  let baseBranch := git.BaseBranch.1
  { requests := [Request.CurrentBranch, Request.BaseBranch]
    msg := Msg.BranchInfoMsg branch baseBranch }

/-- The tail of the closure of `loadFiles`: the message for the result
`(files, err)` of the listing call `req`. -/
def filesResult (req : Request) (r : List FileStatus × Option String) : TaskResult :=
  match r.2 with
  | some err => { requests := [req], msg := Msg.ErrorMsg err }
  | none => { requests := [req], msg := Msg.FilesLoadedMsg r.1 }

/-- The closure of `loadFiles`, run on state `st`. -/
def loadFiles (st : State) (git : GitClient) : TaskResult :=
  match st.Mode.FileViewMode with
  | FileViewMode.FileViewAll => filesResult Request.ListAllFiles git.ListAllFiles
  | FileViewMode.FileViewDocs => filesResult Request.ListDocFiles git.ListDocFiles
  | FileViewMode.FileViewChanged =>
    filesResult (Request.Status st.Mode.DiffMode) (git.Status st.Mode.DiffMode)

/-- The closure of `loadCommits`; `commits[:8]` is `commits.take 8`. -/
def loadCommits (git : GitClient) : TaskResult :=
  match git.Log.2 with
  | some _ => { requests := [Request.Log], msg := Msg.CommitsLoadedMsg [] }
  | none =>
    let commits := git.Log.1
    let commits := if commits.length > 8 then commits.take 8 else commits
    { requests := [Request.Log], msg := Msg.CommitsLoadedMsg commits }

/-- The loop of `loadContent` over the children of a folder selection: the calls
made and the text written to the builder. -/
def loadFolderDiffs (git : GitClient) (mode : DiffMode) :
    List String → List Request × String
  | [] => ([], "")
  | path :: rest =>
    let r := git.Diff path mode
    let tail := loadFolderDiffs git mode rest
    if r.2 = none ∧ r.1 ≠ "" then
      (Request.Diff path mode :: tail.1, r.1 ++ "\n" ++ tail.2)
    else (Request.Diff path mode :: tail.1, tail.2)

/-- The closure of `loadContent`, run on state `st`. -/
def loadContent (st : State) (git : GitClient) : TaskResult :=
  match st.Selection.Type_ with
  | SelectionType.SelectionFile =>
    if st.Mode = ModeBrowse then
      let r := git.ReadFile st.Selection.FilePath
      match r.2 with
      | some err =>
        { requests := [Request.ReadFile st.Selection.FilePath], msg := Msg.ErrorMsg err }
      | none =>
        { requests := [Request.ReadFile st.Selection.FilePath],
          msg := Msg.ContentLoadedMsg r.1 }
    else
      let r := git.Diff st.Selection.FilePath st.Mode.DiffMode
      match r.2 with
      | some err =>
        { requests := [Request.Diff st.Selection.FilePath st.Mode.DiffMode],
          msg := Msg.ErrorMsg err }
      | none =>
        { requests := [Request.Diff st.Selection.FilePath st.Mode.DiffMode],
          msg := Msg.ContentLoadedMsg r.1 }
  | SelectionType.SelectionFolder =>
    let r := loadFolderDiffs git st.Mode.DiffMode st.Selection.Children
    { requests := r.1, msg := Msg.ContentLoadedMsg r.2 }
  | _ => { requests := [], msg := Msg.ContentLoadedMsg "" }

/-- The closure of `loadDiffStats`, run on state `st`. -/
def loadDiffStats (st : State) (git : GitClient) : TaskResult :=
  let r := git.DiffStats st.Mode.DiffMode
  match r.2.2 with
  | some _ =>
    { requests := [Request.DiffStats st.Mode.DiffMode], msg := Msg.DiffStatsMsg 0 0 }
  | none =>
    { requests := [Request.DiffStats st.Mode.DiffMode],
      msg := Msg.DiffStatsMsg r.1 r.2.1 }

def loadPR (gh : GhClient) : TaskResult :=
  let r := gh.GetPRForBranch
  { requests := [Request.GetPRForBranch], msg := Msg.PRLoadedMsg r.1 r.2 }

/-- Running a command against the application as it is when the command runs:
the closures capture the `App` pointer and read `a.state` (and the file list)
at that moment. -/
def runCmd (a : App W) (git : GitClient) (gh : GhClient) : Cmd → TaskResult
  | Cmd.loadBranchInfo => loadBranchInfo git
  | Cmd.loadFiles => loadFiles a.state git
  | Cmd.loadCommits => loadCommits git
  | Cmd.loadContent => loadContent a.state git
  | Cmd.loadDiffStats => loadDiffStats a.state git
  | Cmd.loadPR => loadPR gh
  | Cmd.Tick _ msg => { requests := [], msg := msg }
  | Cmd.Quit => { requests := [], msg := Msg.QuitMsg }
  | Cmd.ExecProcess _ onExit => { requests := [], msg := onExit }
  | Cmd.fileListOnSelect _ path =>
    if W.fileListIsFolderSelected a.fileList then
      { requests := [],
        msg := Msg.FolderSelectedMsg path (W.fileListSelectedChildren a.fileList) }
    else { requests := [], msg := Msg.FileSelectedMsg path }
  | Cmd.commitListOnSelect commit =>
    { requests := [], msg := Msg.CommitSelectedMsg commit }

/-! ## watcher.go: the debouncing event loop -/

/-- The value of `fsnotify.Chmod` (`Create`, `Write`, `Remove`, `Rename`, `Chmod` are
the bits `1 << 0` to `1 << 4` of an `Op`). -/
def fsnotifyChmod : Nat := 16

/-- One turn of the `select` of `eventLoop`: the case that proceeds, with what
it receives. `event ok op` is a receive on `g.watcher.Events` (`ok` false when
the channel is closed), `timerC` a receive on the timer channel, `error ok` a
receive on `g.watcher.Errors`, `done` a receive on `g.done`. -/
inductive Select where
  | done
  | event (ok : Bool) (op : Nat)
  | timerC
  | error (ok : Bool)
  deriving DecidableEq, Repr

/-- The variables of `eventLoop`. Timers are numbered in the order
`time.NewTimer` creates them: `timer` and `timerC` hold the number of the
timer (channel) they refer to, `none` for nil. `notified` lists, in order, the
timers whose firing led to a call of `onChange`; `running` is false once the
loop has returned. -/
structure LoopState where
  timer : Option Nat
  timerC : Option Nat
  created : Nat
  notified : List Nat
  running : Bool
  deriving DecidableEq, Repr

/-- The state in which `eventLoop` starts. -/
def LoopState.init : LoopState :=
  { timer := none, timerC := none, created := 0, notified := [], running := true }

/-- One iteration of the loop of `eventLoop`, for the `select` case that
proceeds; `onChange` tells whether `g.onChange` is non-nil. A receive on a nil
`timerC` never proceeds: `none`. `timer.Stop()` acts on the timer that is being
replaced (or, at `done`, abandoned), whose channel the loop no longer reads, so
it leaves these variables as they are. -/
def eventLoopStep (onChange : Bool) (s : LoopState) : Select → Option LoopState
  | Select.done => some { s with running := false }
  | Select.event ok op =>
    if ok = false then some { s with running := false }
    else if op = fsnotifyChmod then some s
    else some { s with
      timer := some s.created
      timerC := some s.created
      created := s.created + 1 }
  | Select.timerC =>
    match s.timerC with
    | none => none
    | some t =>
      some { s with
        notified := if onChange then s.notified ++ [t] else s.notified
        timerC := none }
  | Select.error ok =>
    if ok = false then some { s with running := false } else some s

/-- The loop of `eventLoop` along a sequence of `select` turns; `none` when the
sequence cannot happen (a turn after the loop has returned, or a receive on a
nil timer channel). -/
def eventLoop (onChange : Bool) : LoopState → List Select → Option LoopState
  | s, [] => some s
  | s, turn :: rest =>
    if s.running then
      match eventLoopStep onChange s turn with
      | some s1 => eventLoop onChange s1 rest
      | none => none
    else none

/-- A burst: the events are received one after the other, with no receive on
the timer channel between them. -/
def burst (ops : List Nat) : List Select :=
  ops.map (fun op => Select.event true op)

/-- Spaced events: after each event that starts a timer (every event that is
not chmod-only), the timer channel is received from before the next event. -/
def spaced : List Nat → List Select
  | [] => []
  | op :: rest =>
    if op = fsnotifyChmod then Select.event true op :: spaced rest
    else Select.event true op :: Select.timerC :: spaced rest

/-- The number of events that count: those that are not chmod-only. -/
def countedEvents (ops : List Nat) : Nat :=
  (ops.filter (fun op => op ≠ fsnotifyChmod)).length

/-! ## Definitions used to state the properties -/

/-- The number of selection variants among file, folder and commit that hold a
non-empty value: a non-empty file path; a non-empty folder path or child list;
a non-nil commit. -/
def nonEmptyVariants (s : Selection) : Nat :=
  (if s.FilePath ≠ "" then 1 else 0)
  + (if s.FolderPath ≠ "" ∨ s.Children ≠ [] then 1 else 0)
  + (if s.Commit ≠ none then 1 else 0)

/-- The listing operation that belongs to a mode: all files for browse-all, doc
files for browse-docs, the changed-file status (under the diff mode of the mode)
otherwise. -/
def listingRequest (m : AppMode) : Request :=
  if m = ModeBrowse then Request.ListAllFiles
  else if m = ModeDocs then Request.ListDocFiles
  else Request.Status m.DiffMode

/-- The mode that a mode key switches to from mode `cur`: the mode-select keys
`1` to `4` name a mode, the mode-cycle key `m` takes the next one. -/
def modeKeys (cur : AppMode) : List (String × AppMode) :=
  [("1", ModeChangedWorking), ("2", ModeChangedBranch), ("3", ModeBrowse),
   ("4", ModeDocs), ("m", cur.Next)]

/-- A window implementation without content, for instantiating the window
parameters: every window is the unit type and the highlighted commit is the
one under the cursor. -/
def unitWindows : WindowImpl :=
  { FileList := Unit, DiffView := Unit, FileView := Unit, Layout := Unit
    fileListSetFocus := fun _ _ => ()
    fileListSetFiles := fun _ _ => ()
    fileListSetPR := fun _ _ => ()
    fileListSetViewMode := fun _ _ => ()
    fileListUpdate := fun _ _ => ((), [])
    fileListIsFolderSelected := fun _ => false
    fileListSelectedChildren := fun _ => []
    diffViewSetFocus := fun _ _ => ()
    diffViewSetPR := fun _ _ => ()
    diffViewSetPreview := fun _ _ => ()
    diffViewUpdate := fun _ _ => ((), [])
    diffViewGetSelectedLocation := fun _ => ("", 0)
    fileViewSetFocus := fun _ _ => ()
    fileViewSetContent := fun _ _ _ => ()
    fileViewUpdate := fun _ _ => ((), [])
    fileViewGetFilePath := fun _ => ""
    fileViewGetSelectedLine := fun _ => 0
    layoutResize := fun _ _ _ => ()
    commitListSelectedCommit := fun c =>
      if 0 ≤ c.cursor then c.commits[c.cursor.toNat]? else none }

/-- An environment in which the clipboard write succeeds and `EDITOR` is unset. -/
def sampleEnv : Env :=
  { clipboardWriteAll := fun _ => none, EDITOR := "" }

/-- The application as `New` builds it over `unitWindows`. -/
def sampleApp : App unitWindows :=
  New unitWindows () () () ()

/-- A repository client whose log holds `n` commits and whose other calls
return empty values without error. -/
def sampleGit (n : Nat) : GitClient :=
  { CurrentBranch := ("main", none)
    BaseBranch := ("main", none)
    Status := fun _ => ([], none)
    ListAllFiles := ([], none)
    ListDocFiles := ([], none)
    Diff := fun _ _ => ("", none)
    ReadFile := fun _ => ("", none)
    Log := ((List.range n).map (fun i => { Hash := toString i, Subject := "s" }), none)
    DiffStats := fun _ => (0, 0, none) }

/-- A remote client that reports no pull request. -/
def sampleGh : GhClient :=
  { GetPRForBranch := (none, some "no pull request") }

/-- The application after the key `4` (browse-docs) and the selection of the
file `README.md`. -/
def docsFileApp : App unitWindows :=
  ((sampleApp.handleKey sampleEnv "4").1.Update sampleEnv
    (Msg.FileSelectedMsg "README.md")).1

/-- The application after the key `3` (browse-all) and the selection of the
file `README.md`. -/
def browseFileApp : App unitWindows :=
  ((sampleApp.handleKey sampleEnv "3").1.Update sampleEnv
    (Msg.FileSelectedMsg "README.md")).1

/-- The application after the help key: the help modal is open. -/
def helpOpenApp : App unitWindows :=
  (sampleApp.handleKey sampleEnv "?").1

/-- The application after the selection of the folder `dir` with the children
`dir/x` and `dir/y` (in the initial mode, branch-changes). -/
def folderApp : App unitWindows :=
  (sampleApp.Update sampleEnv (Msg.FolderSelectedMsg "dir" ["dir/x", "dir/y"])).1

/-- A repository client whose every call fails. -/
def failingGit : GitClient :=
  { CurrentBranch := ("", some "fatal")
    BaseBranch := ("", some "fatal")
    Status := fun _ => ([], some "fatal")
    ListAllFiles := ([], some "fatal")
    ListDocFiles := ([], some "fatal")
    Diff := fun _ _ => ("", some "fatal")
    ReadFile := fun _ => ("", some "fatal")
    Log := ([], some "fatal")
    DiffStats := fun _ => (0, 0, some "fatal") }

/-- The requests of the content-load task as a function of the mode and the
selection alone: for a file, the raw read in browse-all and the diff under the
diff mode of the mode otherwise; for a folder, one diff per child in the order
of the children; none for a commit or no selection. -/
def contentRequests (mode : AppMode) (sel : Selection) : List Request :=
  match sel.Type_ with
  | SelectionType.SelectionFile =>
    if mode = ModeBrowse then [Request.ReadFile sel.FilePath]
    else [Request.Diff sel.FilePath mode.DiffMode]
  | SelectionType.SelectionFolder =>
    sel.Children.map (fun path => Request.Diff path mode.DiffMode)
  | _ => []

/-- The texts, each followed by a newline, concatenated in order. -/
def concatLines : List String → String
  | [] => ""
  | d :: ds => d ++ "\n" ++ concatLines ds

/-- The folder text with every child counted: the diff text that each child's
call returns, each followed by a newline, in the order of the children. -/
def allChildrenText (git : GitClient) (mode : DiffMode) (children : List String) :
    String :=
  concatLines (children.map (fun path => (git.Diff path mode).1))

/-- The children whose diff call succeeds with a non-empty text. -/
def keptChildren (git : GitClient) (mode : DiffMode) (children : List String) :
    List String :=
  children.filter (fun path => (git.Diff path mode).2 = none ∧ (git.Diff path mode).1 ≠ "")

/-- The folder text with only the kept children counted. -/
def keptChildrenText (git : GitClient) (mode : DiffMode) (children : List String) :
    String :=
  concatLines ((keptChildren git mode children).map (fun path => (git.Diff path mode).1))

/-- A repository client whose diff of a path is the text `diff of ` followed by
the path, and whose other calls return empty values without error. -/
def diffGit : GitClient :=
  { CurrentBranch := ("main", none)
    BaseBranch := ("main", none)
    Status := fun _ => ([], none)
    ListAllFiles := ([], none)
    ListDocFiles := ([], none)
    Diff := fun path _ => ("diff of " ++ path, none)
    ReadFile := fun _ => ("", none)
    Log := ([], none)
    DiffStats := fun _ => (0, 0, none) }

/-- The application after a sequence of turns of `Update`, each with the
environment of that turn; the commands returned are left aside. -/
def App.run (a : App W) : List (Env × Msg) → App W
  | [] => a
  | step :: rest => App.run (a.Update step.1 step.2).1 rest

/-- The focus order of `cycleFocus`: file list, commit list, preview window of
the current mode. -/
def App.focusOrder (a : App W) : List String :=
  [WindowFileList, WindowCommitList, a.getPreviewWindow]

/-- The region names of the `assignments` map. -/
def layoutRegions : List String :=
  ["left-top", "left-bottom", "right", "top", "middle", "bottom"]

/-- The window `w` is assigned to some region of the layout. -/
def App.assigned (a : App W) (w : String) : Prop :=
  ∃ region ∈ layoutRegions, a.assignments region = some w

/-- The sample application with two commits loaded. -/
def commitsApp : App unitWindows :=
  (sampleApp.Update sampleEnv
    (Msg.CommitsLoadedMsg [{ Hash := "1a2b3c4d", Subject := "first" },
                           { Hash := "5e6f7a8b", Subject := "second" }])).1

/-- The invariant that every turn of `Update` keeps: the focused window is in
the focus order, the regions `left-top` and `left-bottom` hold the file list
and the commit list, and the region `right` holds the preview window of the
current mode. -/
def App.focusInv (a : App W) : Prop :=
  a.state.FocusedWindow ∈ a.focusOrder
  ∧ a.assignments "left-top" = some WindowFileList
  ∧ a.assignments "left-bottom" = some WindowCommitList
  ∧ a.assignments "right" = some a.getPreviewWindow

/-- A state whose list cursor is at index 2 (otherwise the initial state). -/
def cursorTwoState : State :=
  { NewState with SelectedIndex := 2 }

/-- Three file status entries. -/
def threeFiles : List FileStatus :=
  [{ Path := "a.go", Status := "M" }, { Path := "b.go", Status := "A" },
   { Path := "c.go", Status := "D" }]

/-- The cursor invariant that every turn of `Update` keeps: `SelectedIndex` and
the commit list cursor are not negative, and each is below the length of its
list whenever that list is non-empty. -/
def App.cursorInv (a : App W) : Prop :=
  0 ≤ a.state.SelectedIndex
  ∧ (a.state.Files ≠ [] → a.state.SelectedIndex < a.state.Files.length)
  ∧ 0 ≤ a.commitList.cursor
  ∧ (a.commitList.commits ≠ [] → a.commitList.cursor < a.commitList.commits.length)

/-! ## Properties -/

/-! ### C1: switching modes -/

theorem filesResult_requests (req : Request) (r : List FileStatus × Option String) :
    (filesResult req r).requests = [req] := by
  unfold filesResult
  cases r.2 <;> rfl

theorem loadFiles_requests (st : State) (git : GitClient) :
    (loadFiles st git).requests = [listingRequest st.Mode] := by
  unfold loadFiles listingRequest AppMode.FileViewMode
  by_cases h1 : st.Mode = ModeBrowse
  · simp only [h1, if_true, filesResult_requests]
  · by_cases h2 : st.Mode = ModeDocs
    · rw [if_neg h1, if_pos h2, if_neg h1, if_pos h2]
      exact filesResult_requests _ _
    · rw [if_neg h1, if_neg h2, if_neg h1, if_neg h2]
      exact filesResult_requests _ _

/-- C1: for every state and mode `M`, `SetMode M` leaves `Mode = M`, the
selection none with file path, folder path, children and commit empty, and
`SelectedIndex = 0`; each mode-select key and the mode-cycle key does so for its
mode and returns exactly one command, the file-listing task, which (run on the
application the handler returns) makes the listing request of `M`: all files
for browse-all, doc files for browse-docs, changed-file status otherwise. With
no modal active `Update` hands these keys to the key handler. -/
theorem setMode_clears_and_reloads (env : Env) (a : App W) (git : GitClient)
    (gh : GhClient) :
    (∀ (s : State) (M : AppMode),
      (s.SetMode M).Mode = M
      ∧ (s.SetMode M).Selection.Type_ = SelectionType.SelectionNone
      ∧ (s.SetMode M).Selection.FilePath = ""
      ∧ (s.SetMode M).Selection.FolderPath = ""
      ∧ (s.SetMode M).Selection.Children = []
      ∧ (s.SetMode M).Selection.Commit = none
      ∧ (s.SetMode M).SelectedIndex = 0)
    ∧ (∀ key M, (key, M) ∈ modeKeys a.state.Mode →
      (a.handleKey env key).1.state.Mode = M
      ∧ (a.handleKey env key).1.state.Selection = Selection.zero
      ∧ (a.handleKey env key).1.state.SelectedIndex = 0
      ∧ (a.handleKey env key).2 = [Cmd.loadFiles]
      ∧ (runCmd (a.handleKey env key).1 git gh Cmd.loadFiles).requests
          = [listingRequest M]
      ∧ (a.state.ActiveModal = "" →
          a.Update env (Msg.KeyMsg key) = a.handleKey env key)) := by
  refine ⟨fun s M => ⟨rfl, rfl, rfl, rfl, rfl, rfl, rfl⟩, ?_⟩
  intro key M hmem
  have hreq : ∀ (st : State), (loadFiles st git).requests = [listingRequest st.Mode] :=
    fun st => loadFiles_requests st git
  have hupd : a.state.ActiveModal = "" →
      a.Update env (Msg.KeyMsg key) = a.handleKey env key := by
    intro h
    simp [App.Update, h]
  simp only [modeKeys, List.mem_cons, Prod.mk.injEq, List.mem_singleton,
    List.not_mem_nil, or_false] at hmem
  rcases hmem with ⟨rfl, rfl⟩ | ⟨rfl, rfl⟩ | ⟨rfl, rfl⟩ | ⟨rfl, rfl⟩ | ⟨rfl, rfl⟩ <;>
    exact ⟨rfl, rfl, rfl, rfl, hreq _, hupd⟩

/-- C1, instance: from the application as `New` builds it, the key `3`
switches to browse-all and the listing task requests all files. -/
theorem setMode_clears_and_reloads_witness :
    ("3", ModeBrowse) ∈ modeKeys sampleApp.state.Mode
    ∧ (sampleApp.handleKey sampleEnv "3").1.state.Mode = ModeBrowse
    ∧ (sampleApp.handleKey sampleEnv "3").2 = [Cmd.loadFiles]
    ∧ (runCmd (sampleApp.handleKey sampleEnv "3").1 (sampleGit 0) sampleGh
        Cmd.loadFiles).requests = [Request.ListAllFiles] :=
  have h := (setMode_clears_and_reloads sampleEnv sampleApp (sampleGit 0) sampleGh).2
    "3" ModeBrowse (by decide)
  ⟨by decide, h.1, h.2.2.2.1, h.2.2.2.2.1⟩

/-! ### C2: selection transitions -/

/-- C2, counterexample: selecting a file with the empty path leaves the
selection with type file and no non-empty variant at all, so "exactly one of
file, folder, commit is non-empty" fails for this transition. -/
theorem selectFile_empty_path_none_nonEmpty :
    (Selection.zero.SelectFile "").Type_ = SelectionType.SelectionFile
    ∧ nonEmptyVariants (Selection.zero.SelectFile "") = 0
    ∧ ¬ (nonEmptyVariants (Selection.zero.SelectFile "") = 1) := by
  decide

/-- C2, amended: after every selection transition the variant named by
`Selection.Type` holds the given value and the fields of the other two variants
are empty, whatever the selection was before; so at most one of file, folder,
commit is non-empty, and exactly one is when the given value is non-empty (a
non-empty path for a file, a non-empty path or child list for a folder, a
non-nil commit). -/
theorem selection_transition_exclusive (s : Selection) (path : String)
    (children : List String) (commit : Option Commit) :
    (s.SelectFile path =
        { Type_ := SelectionType.SelectionFile, FilePath := path, FolderPath := "",
          Children := [], Commit := none }
      ∧ nonEmptyVariants (s.SelectFile path) ≤ 1
      ∧ (path ≠ "" → nonEmptyVariants (s.SelectFile path) = 1))
    ∧ (s.SelectFolder path children =
        { Type_ := SelectionType.SelectionFolder, FilePath := "", FolderPath := path,
          Children := children, Commit := none }
      ∧ nonEmptyVariants (s.SelectFolder path children) ≤ 1
      ∧ (path ≠ "" ∨ children ≠ [] →
          nonEmptyVariants (s.SelectFolder path children) = 1))
    ∧ (s.SelectCommit commit =
        { Type_ := SelectionType.SelectionCommit, FilePath := "", FolderPath := "",
          Children := [], Commit := commit }
      ∧ nonEmptyVariants (s.SelectCommit commit) ≤ 1
      ∧ (commit ≠ none → nonEmptyVariants (s.SelectCommit commit) = 1)) := by
  refine ⟨⟨rfl, ?_, ?_⟩, ⟨rfl, ?_, ?_⟩, ⟨rfl, ?_, ?_⟩⟩
  · simp only [nonEmptyVariants, Selection.SelectFile]
    by_cases h : path = "" <;> simp [h]
  · intro h
    simp [nonEmptyVariants, Selection.SelectFile, h]
  · simp only [nonEmptyVariants, Selection.SelectFolder]
    by_cases h : path ≠ "" ∨ children ≠ [] <;> simp [h]
  · intro h
    simp only [nonEmptyVariants, Selection.SelectFolder]
    simp [h]
  · simp only [nonEmptyVariants, Selection.SelectCommit]
    by_cases h : commit = none <;> simp [h]
  · intro h
    simp [nonEmptyVariants, Selection.SelectCommit, h]

/-- C2, instance: selecting the file `a.go` on a folder selection gives a file
selection with exactly one non-empty variant. -/
theorem selection_transition_exclusive_witness :
    ("a.go" : String) ≠ ""
    ∧ nonEmptyVariants
        ((Selection.zero.SelectFolder "dir" ["dir/x", "dir/y"]).SelectFile "a.go") = 1 :=
  ⟨by decide,
   (selection_transition_exclusive (Selection.zero.SelectFolder "dir" ["dir/x", "dir/y"])
      "a.go" [] none).1.2.2 (by decide)⟩

/-! ### C4: commit log truncation -/

/-- C4: when the log call succeeds with a list of length `L`, the commits-loaded
message of the commit log task carries the first 8 entries in order when
`L ≥ 8` (exactly 8 entries) and the whole list when `L < 8`; `Update` stores
that list in the commit list through `SetCommits`. -/
theorem loadCommits_truncates (git : GitClient) (hok : git.Log.2 = none)
    (env : Env) (a : App W) :
    (8 ≤ git.Log.1.length →
      (loadCommits git).msg = Msg.CommitsLoadedMsg (git.Log.1.take 8)
      ∧ (git.Log.1.take 8).length = 8
      ∧ (a.Update env (loadCommits git).msg).1.commitList.commits = git.Log.1.take 8)
    ∧ (git.Log.1.length < 8 →
      (loadCommits git).msg = Msg.CommitsLoadedMsg git.Log.1
      ∧ (a.Update env (loadCommits git).msg).1.commitList.commits = git.Log.1) := by
  have hset : ∀ cs : List Commit, (a.commitList.SetCommits cs).commits = cs := by
    intro cs
    unfold CommitList.SetCommits
    dsimp only
    split <;> rfl
  have hmsg : (loadCommits git).msg
      = Msg.CommitsLoadedMsg
          (if git.Log.1.length > 8 then git.Log.1.take 8 else git.Log.1) := by
    unfold loadCommits
    rw [hok]
  constructor
  · intro h8
    have htake : (if git.Log.1.length > 8 then git.Log.1.take 8 else git.Log.1)
        = git.Log.1.take 8 := by
      by_cases hgt : git.Log.1.length > 8
      · rw [if_pos hgt]
      · rw [if_neg hgt]
        exact (List.take_of_length_le (by omega)).symm
    rw [hmsg, htake]
    refine ⟨rfl, ?_, hset _⟩
    rw [List.length_take]
    omega
  · intro hlt
    have hall : (if git.Log.1.length > 8 then git.Log.1.take 8 else git.Log.1)
        = git.Log.1 := by
      rw [if_neg (by omega)]
    rw [hmsg, hall]
    exact ⟨rfl, hset _⟩

/-- C4, instance: a log of 10 commits is cut to its first 8; a log of 3 commits
is kept whole. -/
theorem loadCommits_truncates_witness :
    (sampleGit 10).Log.2 = none ∧ 8 ≤ (sampleGit 10).Log.1.length
    ∧ (loadCommits (sampleGit 10)).msg
        = Msg.CommitsLoadedMsg ((sampleGit 10).Log.1.take 8)
    ∧ (sampleGit 3).Log.1.length < 8
    ∧ (loadCommits (sampleGit 3)).msg = Msg.CommitsLoadedMsg (sampleGit 3).Log.1 :=
  ⟨rfl, by decide,
   ((loadCommits_truncates (sampleGit 10) rfl sampleEnv sampleApp).1 (by decide)).1,
   by decide,
   ((loadCommits_truncates (sampleGit 3) rfl sampleEnv sampleApp).2 (by decide)).1⟩

/-! ### C5, C6, C8: result messages -/

theorem setFiles_files (s : State) (files : List FileStatus) :
    (s.SetFiles files).Files = files := by
  unfold State.SetFiles
  dsimp only
  split <;> rfl

theorem setFiles_selection (s : State) (files : List FileStatus) :
    (s.SetFiles files).Selection = s.Selection := by
  unfold State.SetFiles
  dsimp only
  split <;> rfl

theorem updatePreview_state (a : App W) : a.updatePreview.state = a.state := by
  unfold App.updatePreview
  dsimp only
  split <;> rfl

/-- C5: for every application state and every two results `A` and `B` of one
kind, delivering `B` and then `A` to `Update` leaves the state fields of that
kind at the values of `A`: `Files` for files-loaded, `DiffContent` for
content-loaded, `Branch` and `BaseBranch` for branch-info, `DiffAdded` and
`DiffRemoved` for diff-stats, and `PR` for pr-loaded (the data of `A`, absent
when `A` carries an error). -/
theorem last_delivered_wins (env : Env) (a : App W) :
    (∀ filesA filesB : List FileStatus,
      (((a.Update env (Msg.FilesLoadedMsg filesB)).1).Update env
        (Msg.FilesLoadedMsg filesA)).1.state.Files = filesA)
    ∧ (∀ contentA contentB : String,
      (((a.Update env (Msg.ContentLoadedMsg contentB)).1).Update env
        (Msg.ContentLoadedMsg contentA)).1.state.DiffContent = contentA)
    ∧ (∀ branchA baseA branchB baseB : String,
      (((a.Update env (Msg.BranchInfoMsg branchB baseB)).1).Update env
        (Msg.BranchInfoMsg branchA baseA)).1.state.Branch = branchA
      ∧ (((a.Update env (Msg.BranchInfoMsg branchB baseB)).1).Update env
        (Msg.BranchInfoMsg branchA baseA)).1.state.BaseBranch = baseA)
    ∧ (∀ addedA removedA addedB removedB : Int,
      (((a.Update env (Msg.DiffStatsMsg addedB removedB)).1).Update env
        (Msg.DiffStatsMsg addedA removedA)).1.state.DiffAdded = addedA
      ∧ (((a.Update env (Msg.DiffStatsMsg addedB removedB)).1).Update env
        (Msg.DiffStatsMsg addedA removedA)).1.state.DiffRemoved = removedA)
    ∧ (∀ (prA prB : Option PRInfo) (errA errB : Option String),
      (((a.Update env (Msg.PRLoadedMsg prB errB)).1).Update env
        (Msg.PRLoadedMsg prA errA)).1.state.PR
        = if errA = none then prA else none) := by
  refine ⟨fun filesA filesB => setFiles_files _ filesA, ?_, ?_, ?_, ?_⟩
  · intro contentA contentB
    simp only [App.Update, updatePreview_state]
  · intro branchA baseA branchB baseB
    exact ⟨rfl, rfl⟩
  · intro addedA removedA addedB removedB
    exact ⟨rfl, rfl⟩
  · intro prA prB errA errB
    cases errA <;> rfl

/-- C6: handling a folder-selected message with children `C` leaves a folder
selection with that path and `Children = C`; and in every state, handling a
files-loaded message leaves the whole selection (type, folder path, children
and the rest) as it was, so the captured children stay `C`. -/
theorem folder_children_kept (env : Env) (a : App W) (path : String)
    (C : List String) :
    (a.Update env (Msg.FolderSelectedMsg path C)).1.state.Selection.Type_
        = SelectionType.SelectionFolder
    ∧ (a.Update env (Msg.FolderSelectedMsg path C)).1.state.Selection.FolderPath = path
    ∧ (a.Update env (Msg.FolderSelectedMsg path C)).1.state.Selection.Children = C
    ∧ (∀ (b : App W) (files : List FileStatus),
        (b.Update env (Msg.FilesLoadedMsg files)).1.state.Selection = b.state.Selection)
    ∧ (∀ files : List FileStatus,
        (((a.Update env (Msg.FolderSelectedMsg path C)).1).Update env
          (Msg.FilesLoadedMsg files)).1.state.Selection.Type_
            = SelectionType.SelectionFolder
        ∧ (((a.Update env (Msg.FolderSelectedMsg path C)).1).Update env
          (Msg.FilesLoadedMsg files)).1.state.Selection.FolderPath = path
        ∧ (((a.Update env (Msg.FolderSelectedMsg path C)).1).Update env
          (Msg.FilesLoadedMsg files)).1.state.Selection.Children = C) := by
  have hkeep : ∀ (b : App W) (files : List FileStatus),
      (b.Update env (Msg.FilesLoadedMsg files)).1.state.Selection = b.state.Selection :=
    fun b files => setFiles_selection b.state files
  refine ⟨rfl, rfl, rfl, hkeep, fun files => ?_⟩
  rw [hkeep]
  exact ⟨rfl, rfl, rfl⟩

/-- C8: in every state, a poll tick leaves the application as it is and returns
two commands, the PR fetch task and the tick that delivers the next poll-tick
message after the poll interval; and a pr-loaded message that carries an error
sets `PR` to absent, whatever `PR` and the message data were, leaves `Error`
and every other state field as they were, and issues no command. -/
theorem poll_tick_and_pr_failure (env : Env) (a : App W) (git : GitClient)
    (gh : GhClient) :
    a.Update env Msg.PRPollTickMsg
        = (a, [Cmd.loadPR, Cmd.Tick PRPollInterval Msg.PRPollTickMsg])
    ∧ (runCmd a git gh (Cmd.Tick PRPollInterval Msg.PRPollTickMsg)).msg
        = Msg.PRPollTickMsg
    ∧ (runCmd a git gh Cmd.loadPR).requests = [Request.GetPRForBranch]
    ∧ (∀ (pr : Option PRInfo) (e : String),
        (a.Update env (Msg.PRLoadedMsg pr (some e))).1.state
            = { a.state with PR := none }
        ∧ (a.Update env (Msg.PRLoadedMsg pr (some e))).1.state.PR = none
        ∧ (a.Update env (Msg.PRLoadedMsg pr (some e))).1.state.Error = a.state.Error
        ∧ (a.Update env (Msg.PRLoadedMsg pr (some e))).2 = []) :=
  ⟨rfl, rfl, rfl, fun _ _ => ⟨rfl, rfl, rfl, rfl⟩⟩

/-! ### C9: the mode cycle -/

/-- C9: `Next` takes working-changes to branch-changes, branch-changes to
browse-all, browse-all to browse-docs and browse-docs to working-changes; for
each of the four modes four applications of `Next` give the mode back and the
four modes visited are pairwise distinct; the initial state is in
branch-changes and one `CycleMode` from it gives browse-all. -/
theorem mode_next_cycle :
    ModeChangedWorking.Next = ModeChangedBranch
    ∧ ModeChangedBranch.Next = ModeBrowse
    ∧ ModeBrowse.Next = ModeDocs
    ∧ ModeDocs.Next = ModeChangedWorking
    ∧ (∀ m ∈ allModes, m.Next.Next.Next.Next = m
        ∧ [m, m.Next, m.Next.Next, m.Next.Next.Next].Nodup)
    ∧ NewState.Mode = ModeChangedBranch
    ∧ NewState.CycleMode.Mode = ModeBrowse := by
  decide

/-! ### C10: the preview window -/

/-- C10, counterexample: after the key `4` the mode is browse-docs, and the
preview window and the `right` and `bottom` assignments are the diff viewer,
not the raw file viewer. -/
theorem docs_mode_previews_in_diff_view :
    (sampleApp.handleKey sampleEnv "4").1.state.Mode = ModeDocs
    ∧ (sampleApp.handleKey sampleEnv "4").1.getPreviewWindow = WindowDiffView
    ∧ (sampleApp.handleKey sampleEnv "4").1.getPreviewWindow ≠ WindowFileView
    ∧ (sampleApp.handleKey sampleEnv "4").1.assignments "right" = some WindowDiffView
    ∧ (sampleApp.handleKey sampleEnv "4").1.assignments "bottom" = some WindowDiffView := by
  decide

/-- C10, amended: the preview target window (`getPreviewWindow`, and the
`right` and `bottom` assignments that `applyModeChange` sets) is the raw file
viewer when the mode is browse-all, and the diff viewer in every other mode:
working-changes, branch-changes and browse-docs. -/
theorem preview_window_by_mode (a : App W) :
    (a.state.Mode = ModeBrowse →
      a.getPreviewWindow = WindowFileView
      ∧ a.applyModeChange.assignments "right" = some WindowFileView
      ∧ a.applyModeChange.assignments "bottom" = some WindowFileView)
    ∧ (a.state.Mode ≠ ModeBrowse →
      a.getPreviewWindow = WindowDiffView
      ∧ a.applyModeChange.assignments "right" = some WindowDiffView
      ∧ a.applyModeChange.assignments "bottom" = some WindowDiffView)
    ∧ (a.state.Mode = ModeChangedWorking ∨ a.state.Mode = ModeChangedBranch
        ∨ a.state.Mode = ModeDocs → a.getPreviewWindow = WindowDiffView) := by
  have hr : a.applyModeChange.assignments "right" = some a.getPreviewWindow := by
    simp [App.applyModeChange, App.updateFocus, App.getPreviewWindow, mapSet]
  have hb : a.applyModeChange.assignments "bottom" = some a.getPreviewWindow := by
    simp [App.applyModeChange, App.updateFocus, App.getPreviewWindow, mapSet]
  have hbrowse : a.state.Mode = ModeBrowse → a.getPreviewWindow = WindowFileView := by
    intro h
    simp [App.getPreviewWindow, h]
  have hother : a.state.Mode ≠ ModeBrowse → a.getPreviewWindow = WindowDiffView := by
    intro h
    simp [App.getPreviewWindow, h]
  refine ⟨fun h => ?_, fun h => ?_, fun h => hother ?_⟩
  · rw [hr, hb, hbrowse h]
    exact ⟨rfl, rfl, rfl⟩
  · rw [hr, hb, hother h]
    exact ⟨rfl, rfl, rfl⟩
  · rcases h with h | h | h <;> rw [h] <;> decide

/-- C10, instance: in the initial application (branch-changes) the preview
window is the diff viewer; after the key `3` (browse-all) it is the raw file
viewer. -/
theorem preview_window_by_mode_witness :
    sampleApp.state.Mode ≠ ModeBrowse
    ∧ sampleApp.getPreviewWindow = WindowDiffView
    ∧ (sampleApp.handleKey sampleEnv "3").1.state.Mode = ModeBrowse
    ∧ (sampleApp.handleKey sampleEnv "3").1.getPreviewWindow = WindowFileView :=
  ⟨by decide, ((preview_window_by_mode sampleApp).2.1 (by decide)).1, by decide,
   ((preview_window_by_mode (sampleApp.handleKey sampleEnv "3").1).1 (by decide)).1⟩

/-! ### C3: focus cycling -/

theorem findCurrentIdx_bounds (l : List String) (focused : String) :
    ∀ i : Int, 0 ≤ i → 0 ≤ findCurrentIdx l focused i
      ∧ (findCurrentIdx l focused i = 0 ∨ findCurrentIdx l focused i < i + l.length) := by
  induction l with
  | nil => intro i _; simp [findCurrentIdx]
  | cons w ws ih =>
    intro i hi
    unfold findCurrentIdx
    by_cases h : w = focused
    · rw [if_pos h]
      refine ⟨hi, Or.inr ?_⟩
      simp only [List.length_cons]
      push_cast
      omega
    · rw [if_neg h]
      obtain ⟨h1, h2⟩ := ih (i + 1) (by omega)
      refine ⟨h1, ?_⟩
      rcases h2 with h2 | h2
      · exact Or.inl h2
      · right
        simp only [List.length_cons]
        push_cast
        omega

/-- The index that `CycleWindow` reads is within the (non-empty) slice. -/
theorem cycleIdx_lt (l : List String) (focused : String) (reverse : Bool)
    (hne : l.length ≠ 0) :
    0 ≤ cycleIdx l focused reverse ∧ cycleIdx l focused reverse < l.length := by
  obtain ⟨h0, h1⟩ := findCurrentIdx_bounds l focused 0 (le_refl 0)
  have hpos : (0 : Int) < l.length := by omega
  have hlt : findCurrentIdx l focused 0 < l.length := by
    rcases h1 with h1 | h1
    · rw [h1]; exact hpos
    · simpa using h1
  unfold cycleIdx
  cases reverse
  · simp only [Bool.false_eq_true, if_false]
    rw [Int.tmod_eq_emod (by omega) (by omega)]
    exact ⟨Int.emod_nonneg _ (by omega), Int.emod_lt_of_pos _ hpos⟩
  · simp only [if_true]
    rw [Int.tmod_eq_emod (by omega) (by omega)]
    exact ⟨Int.emod_nonneg _ (by omega), Int.emod_lt_of_pos _ hpos⟩

theorem findCurrentIdx_getD (l : List String) (hnd : l.Nodup) (j : Nat)
    (hj : j < l.length) (i : Int) :
    findCurrentIdx l (l.getD j "") i = i + j := by
  induction l generalizing i j with
  | nil => simp at hj
  | cons w ws ih =>
    cases j with
    | zero => simp [findCurrentIdx]
    | succ k =>
      have hk : k < ws.length := by simpa using hj
      have hnd2 := List.nodup_cons.mp hnd
      have hmem : ws.getD k "" ∈ ws := by
        rw [List.getD_eq_getElem _ _ hk]
        exact List.getElem_mem _
      have hne : w ≠ ws.getD k "" := fun h => hnd2.1 (h ▸ hmem)
      simp only [findCurrentIdx, List.getD_cons_succ, if_neg hne]
      rw [ih hnd2.2 k hk]
      push_cast
      ring

theorem cycleIdx_forward (l : List String) (hnd : l.Nodup) (j : Nat)
    (hj : j < l.length) :
    (cycleIdx l (l.getD j "") false).toNat = (j + 1) % l.length := by
  unfold cycleIdx
  simp only [findCurrentIdx_getD l hnd j hj, Bool.false_eq_true, if_false, zero_add]
  rw [Int.tmod_eq_emod (by omega) (by omega)]
  have : ((j : Int) + 1) % (l.length : Int) = (((j + 1) % l.length : Nat) : Int) := by
    push_cast
    rfl
  rw [this, Int.toNat_ofNat]

theorem cycleIdx_reverse (l : List String) (hnd : l.Nodup) (j : Nat)
    (hj : j < l.length) :
    (cycleIdx l (l.getD j "") true).toNat = (j + l.length - 1) % l.length := by
  unfold cycleIdx
  simp only [findCurrentIdx_getD l hnd j hj, if_true, zero_add]
  rw [Int.tmod_eq_emod (by omega) (by omega)]
  have : ((j : Int) - 1 + (l.length : Int)) % (l.length : Int)
      = (((j + l.length - 1) % l.length : Nat) : Int) := by
    have h1 : ((j : Int) - 1 + (l.length : Int)) = ((j + l.length - 1 : Nat) : Int) := by
      omega
    rw [h1]
    push_cast
    rfl
  rw [this, Int.toNat_ofNat]

theorem cycleWindow_focus (s : State) (l : List String) (hnd : l.Nodup) (j : Nat)
    (hj : j < l.length) (hf : s.FocusedWindow = l.getD j "") (reverse : Bool) :
    (s.CycleWindow l reverse).FocusedWindow
      = l.getD (if reverse then (j + l.length - 1) % l.length
                else (j + 1) % l.length) "" := by
  have hlen : ¬ l.length = 0 := by omega
  unfold State.CycleWindow
  rw [if_neg hlen, hf]
  cases reverse
  · simp only [cycleIdx_forward l hnd j hj, Bool.false_eq_true, if_false]
  · simp only [cycleIdx_reverse l hnd j hj, if_true]

theorem cycleWindow_iterate_focus (l : List String) (hnd : l.Nodup) (m : Nat) :
    ∀ (s : State) (j : Nat), j < l.length → s.FocusedWindow = l.getD j "" →
      ((fun st : State => st.CycleWindow l false)^[m] s).FocusedWindow
        = l.getD ((j + m) % l.length) "" := by
  induction m with
  | zero =>
    intro s j hj hf
    simp [hf, Nat.mod_eq_of_lt hj]
  | succ k ih =>
    intro s j hj hf
    rw [Function.iterate_succ_apply']
    have hk := ih s j hj hf
    have hlt : (j + k) % l.length < l.length := Nat.mod_lt _ (by omega)
    rw [cycleWindow_focus _ l hnd _ hlt hk false]
    simp only [Bool.false_eq_true, if_false]
    congr 1
    rw [Nat.mod_add_mod, Nat.add_assoc]

/-- C3: for every focus order of `N ≥ 1` distinct windows that contains the
focused window, `N` forward applications of `CycleWindow` bring the focus back
to the window it started from, and so does one forward application followed by
one in reverse. -/
theorem cycleWindow_roundtrip (s : State) (windows : List String)
    (hnd : windows.Nodup) (hmem : s.FocusedWindow ∈ windows) :
    1 ≤ windows.length
    ∧ ((fun st : State => st.CycleWindow windows false)^[windows.length] s).FocusedWindow
        = s.FocusedWindow
    ∧ ((s.CycleWindow windows false).CycleWindow windows true).FocusedWindow
        = s.FocusedWindow := by
  obtain ⟨j, hj, hget⟩ := List.getElem_of_mem hmem
  have hf : s.FocusedWindow = windows.getD j "" := by
    rw [List.getD_eq_getElem _ _ hj, hget]
  refine ⟨by omega, ?_, ?_⟩
  · rw [cycleWindow_iterate_focus windows hnd windows.length s j hj hf,
      Nat.add_mod_right, Nat.mod_eq_of_lt hj, ← hf]
  · have h1 := cycleWindow_focus s windows hnd j hj hf false
    simp only [Bool.false_eq_true, if_false] at h1
    have hlt : (j + 1) % windows.length < windows.length := Nat.mod_lt _ (by omega)
    rw [cycleWindow_focus _ windows hnd _ hlt h1 true]
    simp only [if_true]
    rw [hf]
    congr 1
    by_cases hlast : j + 1 = windows.length
    · rw [hlast, Nat.mod_self, Nat.zero_add, ← hlast]
      simp
    · have hlt2 : j + 1 < windows.length := by omega
      rw [Nat.mod_eq_of_lt hlt2]
      have : j + 1 + windows.length - 1 = j + windows.length := by omega
      rw [this, Nat.add_mod_right, Nat.mod_eq_of_lt hj]

/-- C3, instance: the live focus order of the initial application, with the
focus on the file list. -/
theorem cycleWindow_roundtrip_witness :
    [WindowFileList, WindowCommitList, WindowDiffView].Nodup
    ∧ NewState.FocusedWindow ∈ [WindowFileList, WindowCommitList, WindowDiffView]
    ∧ ((fun st : State =>
          st.CycleWindow [WindowFileList, WindowCommitList, WindowDiffView] false)^[3]
        NewState).FocusedWindow = NewState.FocusedWindow
    ∧ ((NewState.CycleWindow [WindowFileList, WindowCommitList, WindowDiffView]
          false).CycleWindow [WindowFileList, WindowCommitList, WindowDiffView]
          true).FocusedWindow = NewState.FocusedWindow :=
  ⟨by decide, by decide,
   (cycleWindow_roundtrip NewState [WindowFileList, WindowCommitList, WindowDiffView]
      (by decide) (by decide)).2⟩

/-! ### C7: debounce coalescing -/

theorem eventLoop_append (onChange : Bool) (xs ys : List Select) :
    ∀ s : LoopState, eventLoop onChange s (xs ++ ys)
      = (eventLoop onChange s xs).bind (fun s1 => eventLoop onChange s1 ys) := by
  induction xs with
  | nil => intro s; rfl
  | cons x xs ih =>
    intro s
    simp only [List.cons_append, eventLoop]
    by_cases hr : s.running = true
    · simp only [hr, if_true]
      cases hstep : eventLoopStep onChange s x with
      | none => rfl
      | some s1 => exact ih s1
    · simp only [hr]
      rfl

theorem countedEvents_cons (op : Nat) (ops : List Nat) :
    countedEvents (op :: ops)
      = (if op = fsnotifyChmod then 0 else 1) + countedEvents ops := by
  unfold countedEvents
  by_cases h : op = fsnotifyChmod
  · simp [h]
  · simp [h, List.filter_cons]
    omega

theorem eventLoop_cons (onChange : Bool) (s : LoopState) (hr : s.running = true)
    (turn : Select) (rest : List Select) :
    eventLoop onChange s (turn :: rest)
      = (eventLoopStep onChange s turn).bind (fun s1 => eventLoop onChange s1 rest) := by
  simp only [eventLoop, hr, if_true]
  cases eventLoopStep onChange s turn <;> rfl

theorem eventLoopStep_chmod (onChange : Bool) (s : LoopState) :
    eventLoopStep onChange s (Select.event true fsnotifyChmod) = some s := by
  simp [eventLoopStep]

theorem eventLoopStep_event (onChange : Bool) (s : LoopState) (op : Nat)
    (hop : op ≠ fsnotifyChmod) :
    eventLoopStep onChange s (Select.event true op)
      = some { s with timer := some s.created, timerC := some s.created,
                      created := s.created + 1 } := by
  simp [eventLoopStep, hop]

theorem eventLoop_burst (ops : List Nat) :
    ∀ s : LoopState, s.running = true →
      ∃ s1, eventLoop true s (burst ops) = some s1
        ∧ s1.running = true
        ∧ s1.notified = s.notified
        ∧ s1.created = s.created + countedEvents ops
        ∧ (1 ≤ countedEvents ops → s1.timerC = some (s.created + countedEvents ops - 1))
        ∧ (countedEvents ops = 0 → s1.timerC = s.timerC) := by
  induction ops with
  | nil =>
    intro s hr
    exact ⟨s, rfl, hr, rfl, rfl, fun h => absurd h (by decide), fun _ => rfl⟩
  | cons op ops ih =>
    intro s hr
    by_cases hop : op = fsnotifyChmod
    · obtain ⟨s1, h1, h2, h3, h4, h5, h6⟩ := ih s hr
      have hc : countedEvents (op :: ops) = countedEvents ops := by
        rw [countedEvents_cons, if_pos hop, Nat.zero_add]
      refine ⟨s1, ?_, h2, h3, ?_, ?_, ?_⟩
      · show eventLoop true s (Select.event true op :: burst ops) = some s1
        rw [eventLoop_cons true s hr, hop, eventLoopStep_chmod]
        exact h1
      · rw [hc]; exact h4
      · rw [hc]; exact h5
      · rw [hc]; exact h6
    · obtain ⟨s1, h1, h2, h3, h4, h5, h6⟩ :=
        ih { s with timer := some s.created, timerC := some s.created,
                    created := s.created + 1 } hr
      have hc : countedEvents (op :: ops) = 1 + countedEvents ops := by
        rw [countedEvents_cons, if_neg hop]
      refine ⟨s1, ?_, h2, h3, ?_, ?_, ?_⟩
      · show eventLoop true s (Select.event true op :: burst ops) = some s1
        rw [eventLoop_cons true s hr, eventLoopStep_event true s op hop]
        exact h1
      · rw [hc, h4]
        show s.created + 1 + countedEvents ops = s.created + (1 + countedEvents ops)
        omega
      · intro _
        by_cases hz : countedEvents ops = 0
        · rw [h6 hz, hc, hz]
          show some s.created = some (s.created + (1 + 0) - 1)
          congr 1
        · rw [h5 (by omega), hc]
          show some (s.created + 1 + countedEvents ops - 1)
            = some (s.created + (1 + countedEvents ops) - 1)
          congr 1
          omega
      · intro h0
        omega

theorem spaced_cons_chmod (ops : List Nat) :
    spaced (fsnotifyChmod :: ops) = Select.event true fsnotifyChmod :: spaced ops := by
  simp [spaced]

theorem spaced_cons_event (op : Nat) (hop : op ≠ fsnotifyChmod) (ops : List Nat) :
    spaced (op :: ops) = Select.event true op :: Select.timerC :: spaced ops := by
  simp [spaced, hop]

theorem eventLoopStep_timerC (s : LoopState) (t : Nat) (ht : s.timerC = some t) :
    eventLoopStep true s Select.timerC
      = some { s with notified := s.notified ++ [t], timerC := none } := by
  simp [eventLoopStep, ht]

theorem eventLoop_spaced (ops : List Nat) :
    ∀ s : LoopState, s.running = true →
      ∃ s1, eventLoop true s (spaced ops) = some s1
        ∧ s1.running = true
        ∧ s1.created = s.created + countedEvents ops
        ∧ s1.notified
            = s.notified ++ (List.range (countedEvents ops)).map (fun i => s.created + i)
        ∧ (1 ≤ countedEvents ops → s1.timerC = none)
        ∧ (countedEvents ops = 0 → s1.timerC = s.timerC) := by
  induction ops with
  | nil =>
    intro s hr
    exact ⟨s, rfl, hr, rfl, by simp [countedEvents], fun h => absurd h (by decide),
      fun _ => rfl⟩
  | cons op ops ih =>
    intro s hr
    by_cases hop : op = fsnotifyChmod
    · obtain ⟨s1, h1, h2, h3, h4, h5, h6⟩ := ih s hr
      have hc : countedEvents (op :: ops) = countedEvents ops := by
        rw [countedEvents_cons, if_pos hop, Nat.zero_add]
      refine ⟨s1, ?_, h2, ?_, ?_, ?_, ?_⟩
      · rw [hop, spaced_cons_chmod, eventLoop_cons true s hr, eventLoopStep_chmod]
        exact h1
      · rw [hc]; exact h3
      · rw [hc]; exact h4
      · rw [hc]; exact h5
      · rw [hc]; exact h6
    · have hr1 : ({ s with timer := some s.created, timerC := some s.created,
                           created := s.created + 1 } : LoopState).running = true := hr
      obtain ⟨s1, h1, h2, h3, h4, h5, h6⟩ :=
        ih { s with timer := some s.created, timerC := none,
                    created := s.created + 1,
                    notified := s.notified ++ [s.created] } hr
      have hc : countedEvents (op :: ops) = 1 + countedEvents ops := by
        rw [countedEvents_cons, if_neg hop]
      refine ⟨s1, ?_, h2, ?_, ?_, ?_, ?_⟩
      · rw [spaced_cons_event op hop, eventLoop_cons true s hr,
          eventLoopStep_event true s op hop]
        show eventLoop true _ (Select.timerC :: spaced ops) = some s1
        rw [eventLoop_cons true _ hr1, eventLoopStep_timerC _ s.created rfl]
        exact h1
      · rw [hc, h3]
        show s.created + 1 + countedEvents ops = s.created + (1 + countedEvents ops)
        omega
      · rw [hc, h4, Nat.add_comm 1, List.range_succ_eq_map]
        simp only [List.map_cons, List.map_map, List.append_assoc, List.singleton_append,
          Nat.add_zero]
        congr 2
        apply List.map_congr_left
        intro i _
        simp only [Function.comp]
        omega
      · intro _
        by_cases hz : countedEvents ops = 0
        · rw [h6 hz]
        · exact h5 (by omega)
      · intro h0
        omega

/-- C7: in the event loop with `onChange` set, started from any state in which
the loop is running, take events of which `N ≥ 1` are not chmod-only. When
they are received as a burst (no receive on the timer channel between them),
`onChange` is not called during the burst and is called exactly once when the
timer channel is then received from, for the timer that the last counted event
started, after which the timer channel is nil and no further call can follow.
When each counted event is followed by the receive on its timer channel before
the next event, `onChange` is called exactly `N` times, once per timer. -/
theorem debounce_coalesces (s : LoopState) (hrun : s.running = true)
    (ops : List Nat) (hN : 1 ≤ countedEvents ops) :
    (∃ s1 s2, eventLoop true s (burst ops) = some s1
      ∧ s1.notified = s.notified
      ∧ eventLoop true s (burst ops ++ [Select.timerC]) = some s2
      ∧ s2.notified = s.notified ++ [s.created + countedEvents ops - 1]
      ∧ s2.notified.length = s.notified.length + 1
      ∧ s2.running = true
      ∧ eventLoop true s2 [Select.timerC] = none)
    ∧ (∃ s3, eventLoop true s (spaced ops) = some s3
      ∧ s3.notified
          = s.notified ++ (List.range (countedEvents ops)).map (fun i => s.created + i)
      ∧ s3.notified.length = s.notified.length + countedEvents ops) := by
  constructor
  · obtain ⟨s1, h1, h2, h3, _, h5, _⟩ := eventLoop_burst ops s hrun
    have ht := h5 hN
    refine ⟨s1, { s1 with notified := s1.notified ++ [s.created + countedEvents ops - 1],
                          timerC := none }, h1, h3, ?_, ?_, ?_, h2, ?_⟩
    · rw [eventLoop_append, h1]
      show eventLoop true s1 [Select.timerC] = _
      rw [eventLoop_cons true s1 h2, eventLoopStep_timerC s1 _ ht]
      rfl
    · show s1.notified ++ _ = _
      rw [h3]
    · show (s1.notified ++ _).length = _
      rw [h3, List.length_append]
      rfl
    · have hr2 : ({ s1 with
          notified := s1.notified ++ [s.created + countedEvents ops - 1],
          timerC := none } : LoopState).running = true := h2
      rw [eventLoop_cons true _ hr2]
      rfl
  · obtain ⟨s3, h1, _, _, h4, _, _⟩ := eventLoop_spaced ops s hrun
    refine ⟨s3, h1, h4, ?_⟩
    rw [h4, List.length_append, List.length_map, List.length_range]

/-- C7, instance: write, chmod, create, write from the start of the loop:
three events count; as a burst they give one call (for the third timer), spaced
they give three. -/
theorem debounce_coalesces_witness :
    LoopState.init.running = true ∧ 1 ≤ countedEvents [2, 16, 1, 2]
    ∧ (∃ s1 s2, eventLoop true LoopState.init (burst [2, 16, 1, 2]) = some s1
      ∧ s1.notified = LoopState.init.notified
      ∧ eventLoop true LoopState.init (burst [2, 16, 1, 2] ++ [Select.timerC]) = some s2
      ∧ s2.notified = LoopState.init.notified
          ++ [LoopState.init.created + countedEvents [2, 16, 1, 2] - 1]
      ∧ s2.notified.length = LoopState.init.notified.length + 1
      ∧ s2.running = true
      ∧ eventLoop true s2 [Select.timerC] = none)
    ∧ (∃ s3, eventLoop true LoopState.init (spaced [2, 16, 1, 2]) = some s3
      ∧ s3.notified = LoopState.init.notified
          ++ (List.range (countedEvents [2, 16, 1, 2])).map
              (fun i => LoopState.init.created + i)
      ∧ s3.notified.length
          = LoopState.init.notified.length + countedEvents [2, 16, 1, 2]) :=
  ⟨rfl, by decide, debounce_coalesces LoopState.init rfl [2, 16, 1, 2] (by decide)⟩

/-! ### C11: the content load of a file selection -/

/-- C11, counterexample: in browse-docs mode with the file `README.md`
selected, the content-load task requests the branch diff of the file, not a raw
file read. -/
theorem docs_mode_file_content_is_branch_diff :
    docsFileApp.state.Mode = ModeDocs
    ∧ docsFileApp.state.Selection.Type_ = SelectionType.SelectionFile
    ∧ docsFileApp.state.Selection.FilePath = "README.md"
    ∧ (runCmd docsFileApp (sampleGit 0) sampleGh Cmd.loadContent).requests
        = [Request.Diff "README.md" DiffMode.DiffModeBranch]
    ∧ (runCmd docsFileApp (sampleGit 0) sampleGh Cmd.loadContent).requests
        ≠ [Request.ReadFile "README.md"] := by
  decide

/-- C11, amended: for every file selection with path `p`, the content-load task
makes exactly one collaborator request, for exactly `p`: a raw file read of `p`
in browse-all mode, a working-tree diff of `p` in working-changes mode, and a
branch diff of `p` in branch-changes and browse-docs modes (in every mode other
than browse-all, the diff of `p` under the diff mode of the mode); when the call
succeeds its single result is a content-loaded message carrying the returned
text. -/
theorem file_content_request (st : State) (git : GitClient)
    (hfile : st.Selection.Type_ = SelectionType.SelectionFile) :
    (st.Mode = ModeBrowse →
      (loadContent st git).requests = [Request.ReadFile st.Selection.FilePath]
      ∧ ((git.ReadFile st.Selection.FilePath).2 = none →
          (loadContent st git).msg
            = Msg.ContentLoadedMsg (git.ReadFile st.Selection.FilePath).1))
    ∧ (st.Mode ≠ ModeBrowse →
      (loadContent st git).requests
        = [Request.Diff st.Selection.FilePath st.Mode.DiffMode]
      ∧ ((git.Diff st.Selection.FilePath st.Mode.DiffMode).2 = none →
          (loadContent st git).msg
            = Msg.ContentLoadedMsg (git.Diff st.Selection.FilePath st.Mode.DiffMode).1))
    ∧ (st.Mode = ModeChangedWorking →
      (loadContent st git).requests
        = [Request.Diff st.Selection.FilePath DiffMode.DiffModeWorking])
    ∧ (st.Mode = ModeChangedBranch ∨ st.Mode = ModeDocs →
      (loadContent st git).requests
        = [Request.Diff st.Selection.FilePath DiffMode.DiffModeBranch]) := by
  have hbrowse : st.Mode = ModeBrowse →
      (loadContent st git).requests = [Request.ReadFile st.Selection.FilePath]
      ∧ ((git.ReadFile st.Selection.FilePath).2 = none →
          (loadContent st git).msg
            = Msg.ContentLoadedMsg (git.ReadFile st.Selection.FilePath).1) := by
    intro hm
    unfold loadContent
    rw [hfile]
    simp only [hm, if_true]
    cases h : (git.ReadFile st.Selection.FilePath).2 with
    | none => exact ⟨rfl, fun _ => rfl⟩
    | some e => exact ⟨rfl, fun hc => absurd hc (by simp)⟩
  have hdiff : st.Mode ≠ ModeBrowse →
      (loadContent st git).requests
        = [Request.Diff st.Selection.FilePath st.Mode.DiffMode]
      ∧ ((git.Diff st.Selection.FilePath st.Mode.DiffMode).2 = none →
          (loadContent st git).msg
            = Msg.ContentLoadedMsg
                (git.Diff st.Selection.FilePath st.Mode.DiffMode).1) := by
    intro hm
    unfold loadContent
    rw [hfile]
    simp only [hm, if_false]
    cases h : (git.Diff st.Selection.FilePath st.Mode.DiffMode).2 with
    | none => exact ⟨rfl, fun _ => rfl⟩
    | some e => exact ⟨rfl, fun hc => absurd hc (by simp)⟩
  refine ⟨hbrowse, hdiff, fun hm => ?_, fun hm => ?_⟩
  · have h := (hdiff (by rw [hm]; decide)).1
    rw [h, hm]
    rfl
  · have hne : st.Mode ≠ ModeBrowse := by
      rcases hm with hm | hm <;> rw [hm] <;> decide
    have h := (hdiff hne).1
    rw [h]
    rcases hm with hm | hm <;> rw [hm] <;> rfl

/-- C11, instance: with `README.md` selected in browse-all mode the task reads
the file; in browse-docs mode it requests the branch diff. -/
theorem file_content_request_witness :
    browseFileApp.state.Selection.Type_ = SelectionType.SelectionFile
    ∧ browseFileApp.state.Mode = ModeBrowse
    ∧ (loadContent browseFileApp.state (sampleGit 0)).requests
        = [Request.ReadFile browseFileApp.state.Selection.FilePath]
    ∧ (docsFileApp.state.Mode = ModeChangedBranch ∨ docsFileApp.state.Mode = ModeDocs)
    ∧ (loadContent docsFileApp.state (sampleGit 0)).requests
        = [Request.Diff docsFileApp.state.Selection.FilePath DiffMode.DiffModeBranch] :=
  ⟨by decide, by decide,
   ((file_content_request browseFileApp.state (sampleGit 0) (by decide)).1
      (by decide)).1,
   by decide,
   (file_content_request docsFileApp.state (sampleGit 0) (by decide)).2.2.2
      (by decide)⟩

/-! ### C13: keys while a modal is active -/

/-- C13: in every state with a modal active and for every key, `Update` hands
the key to the modal handler only. The application is left as it is, except
that the help and escape keys close the modal; so `Mode`, `Selection`,
`FocusedWindow`, `Files` and `DiffContent` and all windows are unchanged (no
window receives the key). The command returned is the quit command for the quit
key and none otherwise, so no load task is issued. -/
theorem modal_routes_keys (env : Env) (a : App W) (key : String)
    (hmodal : a.state.ActiveModal ≠ "") :
    a.Update env (Msg.KeyMsg key) = a.handleModalKey key
    ∧ (a.Update env (Msg.KeyMsg key) = (a, [Cmd.Quit])
        ∨ a.Update env (Msg.KeyMsg key) = ({ a with state := a.state.CloseModal }, [])
        ∨ a.Update env (Msg.KeyMsg key) = (a, []))
    ∧ (keyMatches key DefaultKeyMap.Quit = true →
        a.Update env (Msg.KeyMsg key) = (a, [Cmd.Quit]))
    ∧ (keyMatches key DefaultKeyMap.Quit = false →
        (keyMatches key DefaultKeyMap.Help = true
          ∨ keyMatches key DefaultKeyMap.Escape = true) →
        a.Update env (Msg.KeyMsg key) = ({ a with state := a.state.CloseModal }, []))
    ∧ (keyMatches key DefaultKeyMap.Quit = false →
        keyMatches key DefaultKeyMap.Help = false →
        keyMatches key DefaultKeyMap.Escape = false →
        a.Update env (Msg.KeyMsg key) = (a, []))
    ∧ (a.Update env (Msg.KeyMsg key)).1.state.Mode = a.state.Mode
    ∧ (a.Update env (Msg.KeyMsg key)).1.state.Selection = a.state.Selection
    ∧ (a.Update env (Msg.KeyMsg key)).1.state.FocusedWindow = a.state.FocusedWindow
    ∧ (a.Update env (Msg.KeyMsg key)).1.state.Files = a.state.Files
    ∧ (a.Update env (Msg.KeyMsg key)).1.state.DiffContent = a.state.DiffContent
    ∧ (a.Update env (Msg.KeyMsg key)).1.fileList = a.fileList
    ∧ (a.Update env (Msg.KeyMsg key)).1.commitList = a.commitList
    ∧ (a.Update env (Msg.KeyMsg key)).1.diffView = a.diffView
    ∧ (a.Update env (Msg.KeyMsg key)).1.fileView = a.fileView
    ∧ (∀ c ∈ (a.Update env (Msg.KeyMsg key)).2, c = Cmd.Quit) := by
  have hroute : a.Update env (Msg.KeyMsg key) = a.handleModalKey key := by
    simp [App.Update, hmodal]
  rw [hroute]
  unfold App.handleModalKey
  by_cases hq : keyMatches key DefaultKeyMap.Quit = true
  · simp [hq]
  · by_cases hh : keyMatches key DefaultKeyMap.Help = true
    · simp [hq, hh, State.CloseModal]
    · by_cases he : keyMatches key DefaultKeyMap.Escape = true
      · simp [hq, hh, he, State.CloseModal]
      · simp [hq, hh, he]

/-- C13, instance: with the help modal open, the mode key `3` changes nothing
and issues nothing. -/
theorem modal_routes_keys_witness :
    helpOpenApp.state.ActiveModal ≠ ""
    ∧ (helpOpenApp.Update sampleEnv (Msg.KeyMsg "3")).1.state.Mode
        = helpOpenApp.state.Mode
    ∧ (∀ c ∈ (helpOpenApp.Update sampleEnv (Msg.KeyMsg "3")).2, c = Cmd.Quit) :=
  have h := modal_routes_keys sampleEnv helpOpenApp "3" (by decide)
  ⟨by decide, h.2.2.2.2.2.1, h.2.2.2.2.2.2.2.2.2.2.2.2.2.2⟩

/-! ### C15, C17: error and resize messages -/

/-- C15: for every state and every error message, `Update` sets `Error` to the
text of the error and changes nothing else: `Files`, `SelectedIndex`,
`DiffContent`, `Selection`, `Mode`, `Branch`, `BaseBranch`, the diff
statistics, `PR`, `FocusedWindow` and `ActiveModal` are as before, the windows
and dimensions too, and no command is issued. -/
theorem error_msg_sets_error_only (env : Env) (a : App W) (e : String) :
    a.Update env (Msg.ErrorMsg e)
        = ({ a with state := { a.state with Error := e } }, [])
    ∧ (a.Update env (Msg.ErrorMsg e)).1.state.Error = e
    ∧ (a.Update env (Msg.ErrorMsg e)).1.state.Files = a.state.Files
    ∧ (a.Update env (Msg.ErrorMsg e)).1.state.SelectedIndex = a.state.SelectedIndex
    ∧ (a.Update env (Msg.ErrorMsg e)).1.state.DiffContent = a.state.DiffContent
    ∧ (a.Update env (Msg.ErrorMsg e)).1.state.Selection = a.state.Selection
    ∧ (a.Update env (Msg.ErrorMsg e)).1.state.Mode = a.state.Mode
    ∧ (a.Update env (Msg.ErrorMsg e)).1.state.Branch = a.state.Branch
    ∧ (a.Update env (Msg.ErrorMsg e)).1.state.BaseBranch = a.state.BaseBranch
    ∧ (a.Update env (Msg.ErrorMsg e)).1.state.DiffAdded = a.state.DiffAdded
    ∧ (a.Update env (Msg.ErrorMsg e)).1.state.DiffRemoved = a.state.DiffRemoved
    ∧ (a.Update env (Msg.ErrorMsg e)).1.state.PR = a.state.PR
    ∧ (a.Update env (Msg.ErrorMsg e)).1.state.FocusedWindow = a.state.FocusedWindow
    ∧ (a.Update env (Msg.ErrorMsg e)).1.state.ActiveModal = a.state.ActiveModal
    ∧ (a.Update env (Msg.ErrorMsg e)).2 = [] :=
  ⟨rfl, rfl, rfl, rfl, rfl, rfl, rfl, rfl, rfl, rfl, rfl, rfl, rfl, rfl, rfl⟩

/-- C17: for every state and every resize message, `Update` stores the new
width and height, passes them to the layout, leaves the whole `State` (the
selection with its type, file path, folder path, children and commit, and every
other field) and the windows as they were, and issues no command. -/
theorem resize_keeps_state (env : Env) (a : App W) (width height : Int) :
    a.Update env (Msg.WindowSizeMsg width height)
        = ({ a with width := width, height := height,
                    layout := W.layoutResize a.layout width height }, [])
    ∧ (a.Update env (Msg.WindowSizeMsg width height)).1.width = width
    ∧ (a.Update env (Msg.WindowSizeMsg width height)).1.height = height
    ∧ (a.Update env (Msg.WindowSizeMsg width height)).1.state = a.state
    ∧ (a.Update env (Msg.WindowSizeMsg width height)).1.state.Selection.Type_
        = a.state.Selection.Type_
    ∧ (a.Update env (Msg.WindowSizeMsg width height)).1.state.Selection.FilePath
        = a.state.Selection.FilePath
    ∧ (a.Update env (Msg.WindowSizeMsg width height)).1.state.Selection.FolderPath
        = a.state.Selection.FolderPath
    ∧ (a.Update env (Msg.WindowSizeMsg width height)).1.state.Selection.Children
        = a.state.Selection.Children
    ∧ (a.Update env (Msg.WindowSizeMsg width height)).1.state.Selection.Commit
        = a.state.Selection.Commit
    ∧ (a.Update env (Msg.WindowSizeMsg width height)).2 = [] :=
  ⟨rfl, rfl, rfl, rfl, rfl, rfl, rfl, rfl, rfl, rfl⟩

/-! ### C20: the refresh message -/

/-- C20: what the code does with a `RefreshMsg`. In every state `Update` returns
the application unchanged and no command, while the refresh key returns the
file-listing, content-load and diff-statistics tasks. With `README.md` selected,
the open-in-editor key returns the command whose result, when the editor exits,
is the `RefreshMsg`; delivering it issues nothing. -/
theorem refresh_msg_issues_nothing (env : Env) (a : App W) :
    a.Update env Msg.RefreshMsg = (a, [])
    ∧ (a.handleKey env "r").2 = [Cmd.loadFiles, Cmd.loadContent, Cmd.loadDiffStats]
    ∧ (browseFileApp.handleKey sampleEnv "o").2
        = [Cmd.ExecProcess ["vim", "README.md"] Msg.RefreshMsg]
    ∧ (runCmd browseFileApp (sampleGit 0) sampleGh
        (Cmd.ExecProcess ["vim", "README.md"] Msg.RefreshMsg)).msg = Msg.RefreshMsg
    ∧ (browseFileApp.Update sampleEnv Msg.RefreshMsg).2 = []
    ∧ (browseFileApp.Update sampleEnv (Msg.KeyMsg "r")).2
        = [Cmd.loadFiles, Cmd.loadContent, Cmd.loadDiffStats] :=
  ⟨rfl, rfl, by decide, rfl, rfl, by decide⟩

/-! ### C14, C18, C19: what the load tasks request and return -/

theorem loadFolderDiffs_requests (git : GitClient) (mode : DiffMode)
    (children : List String) :
    (loadFolderDiffs git mode children).1
      = children.map (fun path => Request.Diff path mode) := by
  induction children with
  | nil => rfl
  | cons path rest ih =>
    unfold loadFolderDiffs
    dsimp only
    split <;> simp [ih]

theorem loadFolderDiffs_text (git : GitClient) (mode : DiffMode)
    (children : List String) :
    (loadFolderDiffs git mode children).2 = keptChildrenText git mode children := by
  induction children with
  | nil => rfl
  | cons path rest ih =>
    unfold loadFolderDiffs
    dsimp only
    by_cases h : (git.Diff path mode).2 = none ∧ (git.Diff path mode).1 ≠ ""
    · rw [if_pos h]
      simp only [ih]
      unfold keptChildrenText keptChildren
      rw [List.filter_cons_of_pos (by simpa using h)]
      rfl
    · rw [if_neg h]
      simp only [ih]
      unfold keptChildrenText keptChildren
      rw [List.filter_cons_of_neg (by simpa using h)]

theorem loadContent_requests (st : State) (git : GitClient) :
    (loadContent st git).requests = contentRequests st.Mode st.Selection := by
  unfold loadContent contentRequests
  cases hT : st.Selection.Type_ with
  | SelectionNone => rfl
  | SelectionCommit => rfl
  | SelectionFolder =>
    simp only
    exact loadFolderDiffs_requests git _ _
  | SelectionFile =>
    simp only
    by_cases hm : st.Mode = ModeBrowse
    · simp only [hm, if_true]
      cases (git.ReadFile st.Selection.FilePath).2 <;> rfl
    · simp only [hm, if_false]
      cases (git.Diff st.Selection.FilePath st.Mode.DiffMode).2 <;> rfl

theorem filesResult_error (req : Request) (r : List FileStatus × Option String)
    (e : String) (h : r.2 = some e) : (filesResult req r).msg = Msg.ErrorMsg e := by
  unfold filesResult
  rw [h]

/-- C14, counterexample: with a folder selected and a repository client whose
every diff fails, the content-load task still returns a content-loaded message
(with empty text), not an error message. -/
theorem folder_child_failure_not_surfaced :
    folderApp.state.Selection.Type_ = SelectionType.SelectionFolder
    ∧ folderApp.state.Selection.Children = ["dir/x", "dir/y"]
    ∧ (failingGit.Diff "dir/x" DiffMode.DiffModeBranch).2 = some "fatal"
    ∧ (runCmd folderApp failingGit sampleGh Cmd.loadContent).requests
        = [Request.Diff "dir/x" DiffMode.DiffModeBranch,
           Request.Diff "dir/y" DiffMode.DiffModeBranch]
    ∧ (runCmd folderApp failingGit sampleGh Cmd.loadContent).msg
        = Msg.ContentLoadedMsg ""
    ∧ (runCmd folderApp failingGit sampleGh Cmd.loadContent).msg
        ≠ Msg.ErrorMsg "fatal" := by
  decide

/-- C14, amended: whenever the collaborator call of a file-listing task, or of a
content-load task on a file selection, fails, the result message of the task is
an error message carrying that failure: for `loadFiles` in every mode (all
files, doc files, status) and for `loadContent` on a file selection in every
mode (raw read in browse-all, diff otherwise). For `loadContent` on a folder
selection the result is always a content-loaded message, with the text of the
children whose diff succeeded with a non-empty text: a child whose diff fails
is skipped. -/
theorem load_failure_surfaces (st : State) (git : GitClient) (e : String) :
    (st.Mode = ModeBrowse → git.ListAllFiles.2 = some e →
      (loadFiles st git).msg = Msg.ErrorMsg e)
    ∧ (st.Mode = ModeDocs → git.ListDocFiles.2 = some e →
      (loadFiles st git).msg = Msg.ErrorMsg e)
    ∧ (st.Mode ≠ ModeBrowse → st.Mode ≠ ModeDocs →
      (git.Status st.Mode.DiffMode).2 = some e →
      (loadFiles st git).msg = Msg.ErrorMsg e)
    ∧ (st.Selection.Type_ = SelectionType.SelectionFile → st.Mode = ModeBrowse →
      (git.ReadFile st.Selection.FilePath).2 = some e →
      (loadContent st git).msg = Msg.ErrorMsg e)
    ∧ (st.Selection.Type_ = SelectionType.SelectionFile → st.Mode ≠ ModeBrowse →
      (git.Diff st.Selection.FilePath st.Mode.DiffMode).2 = some e →
      (loadContent st git).msg = Msg.ErrorMsg e)
    ∧ (st.Selection.Type_ = SelectionType.SelectionFolder →
      (loadContent st git).msg
          = Msg.ContentLoadedMsg
              (keptChildrenText git st.Mode.DiffMode st.Selection.Children)
      ∧ ∀ path, (git.Diff path st.Mode.DiffMode).2 = some e →
          path ∉ keptChildren git st.Mode.DiffMode st.Selection.Children) := by
  refine ⟨?_, ?_, ?_, ?_, ?_, ?_⟩
  · intro hm he
    unfold loadFiles AppMode.FileViewMode
    rw [if_pos hm]
    exact filesResult_error _ _ e he
  · intro hm he
    have hnb : ¬ st.Mode = ModeBrowse := by rw [hm]; decide
    unfold loadFiles AppMode.FileViewMode
    rw [if_neg hnb, if_pos hm]
    exact filesResult_error _ _ e he
  · intro hnb hnd he
    unfold loadFiles AppMode.FileViewMode
    rw [if_neg hnb, if_neg hnd]
    exact filesResult_error _ _ e he
  · intro hT hm he
    unfold loadContent
    rw [hT]
    simp only [hm, if_true]
    rw [he]
  · intro hT hm he
    unfold loadContent
    rw [hT]
    simp only [hm, if_false]
    rw [he]
  · intro hT
    constructor
    · unfold loadContent
      rw [hT]
      simp only [loadFolderDiffs_text]
    · intro path he hmem
      unfold keptChildren at hmem
      have h := (List.mem_filter.mp hmem).2
      simp [he] at h

/-- C14, instance: in the initial state (branch-changes) a failing status call
gives the error message of the file-listing task. -/
theorem load_failure_surfaces_witness :
    NewState.Mode ≠ ModeBrowse ∧ NewState.Mode ≠ ModeDocs
    ∧ (failingGit.Status NewState.Mode.DiffMode).2 = some "fatal"
    ∧ (loadFiles NewState failingGit).msg = Msg.ErrorMsg "fatal" :=
  ⟨by decide, by decide, rfl,
   (load_failure_surfaces NewState failingGit "fatal").2.2.1 (by decide) (by decide) rfl⟩

/-- C18, counterexample: the refresh key in the initial application
(branch-changes, nothing selected) issues the file-listing task. Run on the
application as it is at issue, the task requests the branch status; run after
the key `3` has changed the mode, the same task requests all files. Likewise
the content-load task issued by selecting `README.md` in browse-all reads the
file when run at once, and makes no request when run after the key `1` has
cleared the selection. -/
theorem task_reads_state_when_run :
    Cmd.loadFiles ∈ (sampleApp.handleKey sampleEnv "r").2
    ∧ (runCmd sampleApp (sampleGit 0) sampleGh Cmd.loadFiles).requests
        = [Request.Status DiffMode.DiffModeBranch]
    ∧ (runCmd (sampleApp.handleKey sampleEnv "3").1 (sampleGit 0) sampleGh
        Cmd.loadFiles).requests = [Request.ListAllFiles]
    ∧ (runCmd sampleApp (sampleGit 0) sampleGh Cmd.loadFiles).requests
        ≠ (runCmd (sampleApp.handleKey sampleEnv "3").1 (sampleGit 0) sampleGh
            Cmd.loadFiles).requests
    ∧ ((sampleApp.handleKey sampleEnv "3").1.Update sampleEnv
        (Msg.FileSelectedMsg "README.md")).2 = [Cmd.loadContent]
    ∧ (runCmd browseFileApp (sampleGit 0) sampleGh Cmd.loadContent).requests
        = [Request.ReadFile "README.md"]
    ∧ (runCmd (browseFileApp.handleKey sampleEnv "1").1 (sampleGit 0) sampleGh
        Cmd.loadContent).requests = []
    ∧ (runCmd browseFileApp (sampleGit 0) sampleGh Cmd.loadContent).requests
        ≠ (runCmd (browseFileApp.handleKey sampleEnv "1").1 (sampleGit 0) sampleGh
            Cmd.loadContent).requests := by
  decide

/-- C18, amended: the collaborator request made by a file-listing or
content-load task depends only on the mode and the selection of the state in
which the task runs: two runs of the task in applications with the same mode
and the same selection make the same requests (same operation, same paths,
same diff mode), whatever else differs in the state and whatever the
collaborators return; the requests are the listing request of that mode and the
content requests of that mode and selection. -/
theorem task_request_from_run_state (a b : App W) (git git2 : GitClient)
    (gh gh2 : GhClient) (hmode : a.state.Mode = b.state.Mode)
    (hsel : a.state.Selection = b.state.Selection) :
    (runCmd a git gh Cmd.loadFiles).requests
        = (runCmd b git2 gh2 Cmd.loadFiles).requests
    ∧ (runCmd a git gh Cmd.loadContent).requests
        = (runCmd b git2 gh2 Cmd.loadContent).requests
    ∧ (runCmd a git gh Cmd.loadFiles).requests = [listingRequest a.state.Mode]
    ∧ (runCmd a git gh Cmd.loadContent).requests
        = contentRequests a.state.Mode a.state.Selection := by
  refine ⟨?_, ?_, loadFiles_requests _ _, loadContent_requests _ _⟩
  · show (loadFiles a.state git).requests = (loadFiles b.state git2).requests
    rw [loadFiles_requests, loadFiles_requests, hmode]
  · show (loadContent a.state git).requests = (loadContent b.state git2).requests
    rw [loadContent_requests, loadContent_requests, hmode, hsel]

/-- C18, instance: the folder application before and after an error message
(same mode, same selection), with different repository clients. -/
theorem task_request_from_run_state_witness :
    folderApp.state.Mode
        = ((folderApp.Update sampleEnv (Msg.ErrorMsg "e")).1).state.Mode
    ∧ folderApp.state.Selection
        = ((folderApp.Update sampleEnv (Msg.ErrorMsg "e")).1).state.Selection
    ∧ (runCmd folderApp diffGit sampleGh Cmd.loadContent).requests
        = (runCmd (folderApp.Update sampleEnv (Msg.ErrorMsg "e")).1 failingGit
            sampleGh Cmd.loadContent).requests :=
  ⟨rfl, rfl,
   (task_request_from_run_state folderApp (folderApp.Update sampleEnv (Msg.ErrorMsg "e")).1
      diffGit failingGit sampleGh sampleGh rfl rfl).2.1⟩

/-- C19, counterexample: with the folder `dir` (children `dir/x`, `dir/y`)
selected and a repository client whose diffs are empty, the text of the
content-loaded message is empty, while each child's diff followed by a newline
would be two newlines. -/
theorem folder_empty_diffs_add_no_newline :
    folderApp.state.Selection.Type_ = SelectionType.SelectionFolder
    ∧ folderApp.state.Selection.Children = ["dir/x", "dir/y"]
    ∧ (runCmd folderApp (sampleGit 0) sampleGh Cmd.loadContent).msg
        = Msg.ContentLoadedMsg ""
    ∧ allChildrenText (sampleGit 0) folderApp.state.Mode.DiffMode
        folderApp.state.Selection.Children = "\n\n"
    ∧ (runCmd folderApp (sampleGit 0) sampleGh Cmd.loadContent).msg
        ≠ Msg.ContentLoadedMsg
            (allChildrenText (sampleGit 0) folderApp.state.Mode.DiffMode
              folderApp.state.Selection.Children) := by
  decide

/-- C19, amended: for every folder selection with captured children, the
content-load task requests one diff per child, in the order of the children
list and under the diff mode of the current mode, and its result is a
content-loaded message whose text is the concatenation, in that order, of the
diffs that succeeded with a non-empty text, each followed by a newline; a child
whose diff fails or is empty adds nothing. When every child's diff succeeds
with a non-empty text, this is each child's diff followed by a newline. -/
theorem folder_content_concatenated (st : State) (git : GitClient)
    (hfolder : st.Selection.Type_ = SelectionType.SelectionFolder) :
    (loadContent st git).requests
        = st.Selection.Children.map (fun path => Request.Diff path st.Mode.DiffMode)
    ∧ (loadContent st git).msg
        = Msg.ContentLoadedMsg
            (keptChildrenText git st.Mode.DiffMode st.Selection.Children)
    ∧ ((∀ path ∈ st.Selection.Children,
          (git.Diff path st.Mode.DiffMode).2 = none
          ∧ (git.Diff path st.Mode.DiffMode).1 ≠ "") →
        (loadContent st git).msg
          = Msg.ContentLoadedMsg
              (allChildrenText git st.Mode.DiffMode st.Selection.Children)) := by
  have hmsg : (loadContent st git).msg
      = Msg.ContentLoadedMsg
          (keptChildrenText git st.Mode.DiffMode st.Selection.Children) := by
    unfold loadContent
    rw [hfolder]
    simp only [loadFolderDiffs_text]
  refine ⟨?_, hmsg, fun hall => ?_⟩
  · rw [loadContent_requests]
    unfold contentRequests
    rw [hfolder]
  · rw [hmsg]
    unfold keptChildrenText allChildrenText keptChildren
    rw [List.filter_eq_self.mpr]
    intro path hp
    simpa using hall path hp

/-- C19, instance: with the folder `dir` selected and a client whose diffs are
non-empty, the text is the two diffs, each followed by a newline. -/
theorem folder_content_concatenated_witness :
    folderApp.state.Selection.Type_ = SelectionType.SelectionFolder
    ∧ (∀ path ∈ folderApp.state.Selection.Children,
        (diffGit.Diff path folderApp.state.Mode.DiffMode).2 = none
        ∧ (diffGit.Diff path folderApp.state.Mode.DiffMode).1 ≠ "")
    ∧ (loadContent folderApp.state diffGit).msg
        = Msg.ContentLoadedMsg
            (allChildrenText diffGit folderApp.state.Mode.DiffMode
              folderApp.state.Selection.Children)
    ∧ allChildrenText diffGit folderApp.state.Mode.DiffMode
        folderApp.state.Selection.Children = "diff of dir/x\ndiff of dir/y\n" :=
  ⟨by decide, by decide,
   (folder_content_concatenated folderApp.state diffGit (by decide)).2.2 (by decide),
   by decide⟩

/-! ### C16: focus cycling and the commit selection -/

theorem cycleWindow_mode (s : State) (l : List String) (reverse : Bool) :
    (s.CycleWindow l reverse).Mode = s.Mode
    ∧ (s.CycleWindow l reverse).Selection = s.Selection
    ∧ (s.CycleWindow l reverse).PR = s.PR := by
  unfold State.CycleWindow
  split <;> exact ⟨rfl, rfl, rfl⟩

theorem cycleWindow_focus_mem (s : State) (l : List String) (reverse : Bool)
    (hne : l.length ≠ 0) : (s.CycleWindow l reverse).FocusedWindow ∈ l := by
  unfold State.CycleWindow
  rw [if_neg hne]
  obtain ⟨h0, h1⟩ := cycleIdx_lt l s.FocusedWindow reverse hne
  have hlt : (cycleIdx l s.FocusedWindow reverse).toNat < l.length := by omega
  show l.getD _ "" ∈ l
  rw [List.getD_eq_getElem _ _ hlt]
  exact List.getElem_mem _

theorem cycleFocus_frame (a : App W) (reverse : Bool) :
    (a.cycleFocus reverse).state.FocusedWindow
        = (a.state.CycleWindow a.focusOrder reverse).FocusedWindow
    ∧ (a.cycleFocus reverse).state.Mode = a.state.Mode
    ∧ (a.cycleFocus reverse).state.PR = a.state.PR
    ∧ (a.cycleFocus reverse).assignments = a.assignments := by
  have hm := cycleWindow_mode a.state a.focusOrder reverse
  unfold App.cycleFocus
  dsimp only
  split
  · split
    · simp only [updatePreview_state]
      refine ⟨rfl, hm.1, hm.2.2, ?_⟩
      unfold App.updatePreview
      dsimp only
      split <;> rfl
    · exact ⟨rfl, hm.1, hm.2.2, rfl⟩
  · split
    · simp only [updatePreview_state]
      refine ⟨rfl, hm.1, hm.2.2, ?_⟩
      unfold App.updatePreview
      dsimp only
      split <;> rfl
    · exact ⟨rfl, hm.1, hm.2.2, rfl⟩

/-- C16: when a focus cycle moves the focus onto the commit list from another
window and the commit list (now focused) reports the highlighted commit `c`,
the selection afterwards is the commit variant holding `c`, with the other
variants empty, and the computed preview is the commit summary of `c` (with the
current PR data); when a focus cycle moves the focus away from the commit list,
the selection afterwards is none and the computed preview is the empty
preview. -/
theorem focus_cycle_commit_selection (a : App W) (reverse : Bool) :
    (∀ c : Commit,
      a.state.FocusedWindow ≠ WindowCommitList →
      (a.cycleFocus reverse).state.FocusedWindow = WindowCommitList →
      W.commitListSelectedCommit (a.commitList.SetFocus true) = some c →
      (a.cycleFocus reverse).state.Selection
          = { Type_ := SelectionType.SelectionCommit, FilePath := "", FolderPath := "",
              Children := [], Commit := some c }
      ∧ (a.cycleFocus reverse).computePreview
          = { Type_ := PreviewType.PreviewCommitSummary, Content := "", FilePath := "",
              FolderPath := "", Commit := some c, PR := a.state.PR })
    ∧ (a.state.FocusedWindow = WindowCommitList →
      (a.cycleFocus reverse).state.FocusedWindow ≠ WindowCommitList →
      (a.cycleFocus reverse).state.Selection
          = { Type_ := SelectionType.SelectionNone, FilePath := "", FolderPath := "",
              Children := [], Commit := none }
      ∧ (a.cycleFocus reverse).computePreview
          = { Type_ := PreviewType.PreviewEmpty, Content := "", FilePath := "",
              FolderPath := "", Commit := none, PR := none }) := by
  have hm := cycleWindow_mode a.state a.focusOrder reverse
  have hfocus := (cycleFocus_frame a reverse).1
  constructor
  · intro c hprev hnow hsel
    rw [hfocus] at hnow
    have hnow2 : (a.state.CycleWindow
        [WindowFileList, WindowCommitList, a.getPreviewWindow] reverse).FocusedWindow
          = WindowCommitList := hnow
    have hst : (a.cycleFocus reverse).state.Selection
          = { Type_ := SelectionType.SelectionCommit, FilePath := "", FolderPath := "",
              Children := [], Commit := some c }
        ∧ (a.cycleFocus reverse).state.PR = a.state.PR := by
      unfold App.cycleFocus
      simp only [App.updateFocus, hnow2, hprev, ne_eq, not_false_eq_true, and_self,
        if_true, beq_self_eq_true, hsel, updatePreview_state]
      exact ⟨rfl, hm.2.2⟩
    refine ⟨hst.1, ?_⟩
    unfold App.computePreview
    rw [hst.1, hst.2]
  · intro hprev hnow
    rw [hfocus] at hnow
    have hnow2 : ¬ (a.state.CycleWindow
        [WindowFileList, WindowCommitList, a.getPreviewWindow] reverse).FocusedWindow
          = WindowCommitList := hnow
    have hst : (a.cycleFocus reverse).state.Selection
          = { Type_ := SelectionType.SelectionNone, FilePath := "", FolderPath := "",
              Children := [], Commit := none } := by
      unfold App.cycleFocus
      simp only [App.updateFocus, hnow2, hprev, ne_eq, not_true_eq_false, and_false,
        false_and, if_false, not_false_eq_true, and_self, if_true, updatePreview_state]
      rfl
    refine ⟨hst, ?_⟩
    unfold App.computePreview
    rw [hst]

/-- C16, instance: with two commits loaded and the focus on the file list, a
forward cycle moves the focus to the commit list and selects the first commit;
a further forward cycle leaves the commit list and clears the selection. -/
theorem focus_cycle_commit_selection_witness :
    commitsApp.state.FocusedWindow ≠ WindowCommitList
    ∧ (commitsApp.cycleFocus false).state.FocusedWindow = WindowCommitList
    ∧ unitWindows.commitListSelectedCommit (commitsApp.commitList.SetFocus true)
        = some { Hash := "1a2b3c4d", Subject := "first" }
    ∧ (commitsApp.cycleFocus false).state.Selection
        = { Type_ := SelectionType.SelectionCommit, FilePath := "", FolderPath := "",
            Children := [], Commit := some { Hash := "1a2b3c4d", Subject := "first" } }
    ∧ ((commitsApp.cycleFocus false).cycleFocus false).state.FocusedWindow
        ≠ WindowCommitList
    ∧ ((commitsApp.cycleFocus false).cycleFocus false).state.Selection
        = { Type_ := SelectionType.SelectionNone, FilePath := "", FolderPath := "",
            Children := [], Commit := none } :=
  ⟨by decide, by decide, by decide,
   ((focus_cycle_commit_selection commitsApp false).1
      { Hash := "1a2b3c4d", Subject := "first" } (by decide) (by decide) (by decide)).1,
   by decide,
   ((focus_cycle_commit_selection (commitsApp.cycleFocus false) false).2
      (by decide) (by decide)).1⟩

/-! ### C12: the focused window stays in the focus order -/

theorem focusInv_of_frame (a b : App W) (hm : b.state.Mode = a.state.Mode)
    (hf : b.state.FocusedWindow = a.state.FocusedWindow)
    (ha : b.assignments = a.assignments) (h : a.focusInv) : b.focusInv := by
  have hp : b.getPreviewWindow = a.getPreviewWindow := by
    unfold App.getPreviewWindow
    rw [hm]
  unfold App.focusInv App.focusOrder at *
  rw [hf, ha, hp]
  exact h

theorem focusInv_applyModeChange (a : App W)
    (h1 : a.assignments "left-top" = some WindowFileList)
    (h2 : a.assignments "left-bottom" = some WindowCommitList) :
    a.applyModeChange.focusInv := by
  have hmode : a.applyModeChange.state.Mode = a.state.Mode := rfl
  have hp : a.applyModeChange.getPreviewWindow = a.getPreviewWindow := by
    unfold App.getPreviewWindow
    rw [hmode]
  have hasg : a.applyModeChange.assignments
      = mapSet (mapSet a.assignments "right" a.getPreviewWindow) "bottom"
          a.getPreviewWindow := rfl
  unfold App.focusInv
  rw [hasg, hp]
  refine ⟨?_, ?_, ?_, ?_⟩
  · show WindowFileList ∈ _
    simp [App.focusOrder]
  · simp [mapSet, h1]
  · simp [mapSet, h2]
  · simp [mapSet]

theorem focusInv_cycleFocus (a : App W) (reverse : Bool) (h : a.focusInv) :
    (a.cycleFocus reverse).focusInv := by
  obtain ⟨hf, hm, _, ha⟩ := cycleFocus_frame a reverse
  have hp : (a.cycleFocus reverse).getPreviewWindow = a.getPreviewWindow := by
    unfold App.getPreviewWindow
    rw [hm]
  unfold App.focusInv App.focusOrder at *
  rw [hf, ha, hp]
  exact ⟨cycleWindow_focus_mem _ _ _ (by simp), h.2⟩

theorem handleYank_frame (env : Env) (a : App W) :
    (a.handleYank env).1.state = a.state
    ∧ (a.handleYank env).1.assignments = a.assignments := by
  unfold App.handleYank
  dsimp only
  split_ifs <;> first | exact ⟨rfl, rfl⟩ | (split <;> exact ⟨rfl, rfl⟩)

theorem handleOpenEditor_frame (env : Env) (a : App W) :
    (a.handleOpenEditor env).1 = a := by
  unfold App.handleOpenEditor
  dsimp only
  rw [apply_ite Prod.fst, ite_self]

theorem delegateToFocused_frame (a : App W) (msg : Msg) :
    (a.delegateToFocused msg).1.state = a.state
    ∧ (a.delegateToFocused msg).1.assignments = a.assignments := by
  unfold App.delegateToFocused
  dsimp only
  split_ifs <;> exact ⟨rfl, rfl⟩

theorem toggleModal_frame (s : State) (name : String) :
    (s.ToggleModal name).Mode = s.Mode
    ∧ (s.ToggleModal name).FocusedWindow = s.FocusedWindow := by
  unfold State.ToggleModal
  split <;> exact ⟨rfl, rfl⟩

theorem updatePreview_assignments (a : App W) :
    a.updatePreview.assignments = a.assignments := by
  unfold App.updatePreview
  dsimp only
  split <;> rfl

theorem handleKey_focusInv (env : Env) (a : App W) (key : String) (h : a.focusInv) :
    (a.handleKey env key).1.focusInv := by
  unfold App.handleKey
  by_cases h0 : keyMatches key DefaultKeyMap.Quit = true
  · rw [if_pos h0]
    exact h
  rw [if_neg h0]
  by_cases h1 : keyMatches key DefaultKeyMap.Help = true
  · rw [if_pos h1]
    exact focusInv_of_frame a _ (toggleModal_frame _ _).1 (toggleModal_frame _ _).2 rfl h
  rw [if_neg h1]
  by_cases h2 : keyMatches key DefaultKeyMap.Refresh = true
  · rw [if_pos h2]
    exact h
  rw [if_neg h2]
  by_cases h3 : keyMatches key DefaultKeyMap.CycleMode = true
  · rw [if_pos h3]
    exact focusInv_applyModeChange _ h.2.1 h.2.2.1
  rw [if_neg h3]
  by_cases h4 : keyMatches key DefaultKeyMap.Mode1 = true
  · rw [if_pos h4]
    exact focusInv_applyModeChange _ h.2.1 h.2.2.1
  rw [if_neg h4]
  by_cases h5 : keyMatches key DefaultKeyMap.Mode2 = true
  · rw [if_pos h5]
    exact focusInv_applyModeChange _ h.2.1 h.2.2.1
  rw [if_neg h5]
  by_cases h6 : keyMatches key DefaultKeyMap.Mode3 = true
  · rw [if_pos h6]
    exact focusInv_applyModeChange _ h.2.1 h.2.2.1
  rw [if_neg h6]
  by_cases h7 : keyMatches key DefaultKeyMap.Mode4 = true
  · rw [if_pos h7]
    exact focusInv_applyModeChange _ h.2.1 h.2.2.1
  rw [if_neg h7]
  by_cases h8 : keyMatches key DefaultKeyMap.Tab = true
  · rw [if_pos h8]
    exact focusInv_cycleFocus a true h
  rw [if_neg h8]
  by_cases h9 : keyMatches key DefaultKeyMap.ShiftTab = true
  · rw [if_pos h9]
    exact focusInv_cycleFocus a false h
  rw [if_neg h9]
  by_cases h10 : keyMatches key DefaultKeyMap.Yank = true
  · rw [if_pos h10]
    exact focusInv_of_frame a _ (by rw [(handleYank_frame env a).1])
      (by rw [(handleYank_frame env a).1]) (handleYank_frame env a).2 h
  rw [if_neg h10]
  by_cases h11 : keyMatches key DefaultKeyMap.OpenEditor = true
  · rw [if_pos h11]
    rw [handleOpenEditor_frame]
    exact h
  rw [if_neg h11]
  have hd := delegateToFocused_frame a (Msg.KeyMsg key)
  exact focusInv_of_frame a _ (by rw [hd.1]) (by rw [hd.1]) hd.2 h

theorem handleModalKey_focusInv (a : App W) (key : String) (h : a.focusInv) :
    (a.handleModalKey key).1.focusInv := by
  unfold App.handleModalKey
  by_cases h0 : keyMatches key DefaultKeyMap.Quit = true
  · rw [if_pos h0]
    exact h
  rw [if_neg h0]
  split
  · exact focusInv_of_frame a _ rfl rfl rfl h
  · exact h

theorem update_focusInv (env : Env) (a : App W) (msg : Msg) (h : a.focusInv) :
    (a.Update env msg).1.focusInv := by
  cases msg with
  | WindowSizeMsg width height => exact focusInv_of_frame a _ rfl rfl rfl h
  | KeyMsg key =>
    unfold App.Update
    dsimp only
    split
    · exact handleModalKey_focusInv a key h
    · exact handleKey_focusInv env a key h
  | FileSelectedMsg path => exact focusInv_of_frame a _ rfl rfl rfl h
  | FolderSelectedMsg path children => exact focusInv_of_frame a _ rfl rfl rfl h
  | CommitSelectedMsg commit =>
    refine focusInv_of_frame a _ ?_ ?_ ?_ h
    · show (App.updatePreview _).state.Mode = _
      rw [updatePreview_state]
    · show (App.updatePreview _).state.FocusedWindow = _
      rw [updatePreview_state]
    · show (App.updatePreview _).assignments = _
      rw [updatePreview_assignments]
  | FilesLoadedMsg files =>
    refine focusInv_of_frame a _ ?_ ?_ rfl h
    · show (a.state.SetFiles files).Mode = _
      unfold State.SetFiles
      dsimp only
      split <;> rfl
    · show (a.state.SetFiles files).FocusedWindow = _
      unfold State.SetFiles
      dsimp only
      split <;> rfl
  | ContentLoadedMsg content =>
    refine focusInv_of_frame a _ ?_ ?_ ?_ h
    · show (App.updatePreview _).state.Mode = _
      rw [updatePreview_state]
    · show (App.updatePreview _).state.FocusedWindow = _
      rw [updatePreview_state]
    · show (App.updatePreview _).assignments = _
      rw [updatePreview_assignments]
  | CommitsLoadedMsg commits => exact focusInv_of_frame a _ rfl rfl rfl h
  | BranchInfoMsg branch baseBranch => exact focusInv_of_frame a _ rfl rfl rfl h
  | DiffStatsMsg added removed => exact focusInv_of_frame a _ rfl rfl rfl h
  | PRLoadedMsg pr err =>
    cases err with
    | none => exact focusInv_of_frame a _ rfl rfl rfl h
    | some e => exact focusInv_of_frame a _ rfl rfl rfl h
  | ErrorMsg err => exact focusInv_of_frame a _ rfl rfl rfl h
  | RefreshMsg => exact h
  | GitChangedMsg => exact h
  | PRPollTickMsg => exact h
  | QuitMsg => exact h

theorem run_focusInv (steps : List (Env × Msg)) :
    ∀ a : App W, a.focusInv → (a.run steps).focusInv := by
  induction steps with
  | nil => intro a h; exact h
  | cons step rest ih =>
    intro a h
    exact ih _ (update_focusInv step.1 a step.2 h)

/-- C12: in every state reached from the application that `New` builds (with
`NewState`) through any sequence of messages handled by `Update`, the focused
window is a member of the focus order (file list, commit list, preview window
of the current mode), and each window of that order is assigned to a region of
the layout. -/
theorem focused_window_in_focus_order (fileList : W.FileList) (diffView : W.DiffView)
    (fileView : W.FileView) (layout : W.Layout) (steps : List (Env × Msg)) :
    ((New W fileList diffView fileView layout).run steps).state.FocusedWindow
        ∈ ((New W fileList diffView fileView layout).run steps).focusOrder
    ∧ ∀ w ∈ ((New W fileList diffView fileView layout).run steps).focusOrder,
        ((New W fileList diffView fileView layout).run steps).assigned w := by
  have hinit : (New W fileList diffView fileView layout).focusInv := by
    refine ⟨?_, rfl, rfl, rfl⟩
    show WindowFileList ∈ _
    simp [App.focusOrder]
  obtain ⟨h1, h2, h3, h4⟩ := run_focusInv steps _ hinit
  refine ⟨h1, ?_⟩
  intro w hw
  simp only [App.focusOrder, List.mem_cons, List.mem_singleton, List.not_mem_nil,
    or_false] at hw
  rcases hw with rfl | rfl | rfl
  · exact ⟨"left-top", by simp [layoutRegions], h2⟩
  · exact ⟨"left-bottom", by simp [layoutRegions], h3⟩
  · exact ⟨"right", by simp [layoutRegions], h4⟩

/-! ### C21: the list cursors stay within the lists -/

theorem cursorInv_of_frame (a b : App W) (hF : b.state.Files = a.state.Files)
    (hI : b.state.SelectedIndex = a.state.SelectedIndex)
    (hc : b.commitList.commits = a.commitList.commits)
    (hk : b.commitList.cursor = a.commitList.cursor) (h : a.cursorInv) :
    b.cursorInv := by
  unfold App.cursorInv at *
  rw [hF, hI, hc, hk]
  exact h

theorem length_pos_int {α : Type} (l : List α) (hl : l ≠ []) : (0 : Int) < l.length := by
  have : 0 < l.length := List.length_pos.mpr hl
  omega

theorem cursorInv_modeChange (a : App W) (mode : AppMode) (h : a.cursorInv) :
    (App.applyModeChange { a with state := a.state.SetMode mode }).cursorInv := by
  refine ⟨le_refl 0, fun hne => ?_, h.2.2.1, h.2.2.2⟩
  exact length_pos_int _ hne

theorem cycleWindow_files (s : State) (l : List String) (reverse : Bool) :
    (s.CycleWindow l reverse).Files = s.Files
    ∧ (s.CycleWindow l reverse).SelectedIndex = s.SelectedIndex := by
  unfold State.CycleWindow
  split <;> exact ⟨rfl, rfl⟩

theorem updatePreview_commitList (a : App W) :
    a.updatePreview.commitList = a.commitList := by
  unfold App.updatePreview
  dsimp only
  split <;> rfl

theorem cycleFocus_cursor_frame (a : App W) (reverse : Bool) :
    (a.cycleFocus reverse).state.Files = a.state.Files
    ∧ (a.cycleFocus reverse).state.SelectedIndex = a.state.SelectedIndex
    ∧ (a.cycleFocus reverse).commitList.commits = a.commitList.commits
    ∧ (a.cycleFocus reverse).commitList.cursor = a.commitList.cursor := by
  have hw := cycleWindow_files a.state a.focusOrder reverse
  unfold App.cycleFocus
  dsimp only
  split
  · split
    · simp only [updatePreview_state, updatePreview_commitList]
      exact ⟨hw.1, hw.2, rfl, rfl⟩
    · exact ⟨hw.1, hw.2, rfl, rfl⟩
  · split
    · simp only [updatePreview_state, updatePreview_commitList]
      exact ⟨hw.1, hw.2, rfl, rfl⟩
    · exact ⟨hw.1, hw.2, rfl, rfl⟩

theorem handleYank_commitList (env : Env) (a : App W) :
    (a.handleYank env).1.commitList = a.commitList := by
  unfold App.handleYank
  dsimp only
  split_ifs <;> first | rfl | (split <;> rfl)

theorem delegateToFocused_commitList (a : App W) (msg : Msg) :
    (a.delegateToFocused msg).1.commitList = a.commitList := by
  unfold App.delegateToFocused
  dsimp only
  split_ifs <;> rfl

theorem toggleModal_files (s : State) (name : String) :
    (s.ToggleModal name).Files = s.Files
    ∧ (s.ToggleModal name).SelectedIndex = s.SelectedIndex := by
  unfold State.ToggleModal
  split <;> exact ⟨rfl, rfl⟩

theorem handleKey_cursorInv (env : Env) (a : App W) (key : String) (h : a.cursorInv) :
    (a.handleKey env key).1.cursorInv := by
  unfold App.handleKey
  by_cases h0 : keyMatches key DefaultKeyMap.Quit = true
  · rw [if_pos h0]
    exact h
  rw [if_neg h0]
  by_cases h1 : keyMatches key DefaultKeyMap.Help = true
  · rw [if_pos h1]
    exact cursorInv_of_frame a _ (toggleModal_files _ _).1 (toggleModal_files _ _).2 rfl rfl h
  rw [if_neg h1]
  by_cases h2 : keyMatches key DefaultKeyMap.Refresh = true
  · rw [if_pos h2]
    exact h
  rw [if_neg h2]
  by_cases h3 : keyMatches key DefaultKeyMap.CycleMode = true
  · rw [if_pos h3]
    exact cursorInv_modeChange a a.state.Mode.Next h
  rw [if_neg h3]
  by_cases h4 : keyMatches key DefaultKeyMap.Mode1 = true
  · rw [if_pos h4]
    exact cursorInv_modeChange a ModeChangedWorking h
  rw [if_neg h4]
  by_cases h5 : keyMatches key DefaultKeyMap.Mode2 = true
  · rw [if_pos h5]
    exact cursorInv_modeChange a ModeChangedBranch h
  rw [if_neg h5]
  by_cases h6 : keyMatches key DefaultKeyMap.Mode3 = true
  · rw [if_pos h6]
    exact cursorInv_modeChange a ModeBrowse h
  rw [if_neg h6]
  by_cases h7 : keyMatches key DefaultKeyMap.Mode4 = true
  · rw [if_pos h7]
    exact cursorInv_modeChange a ModeDocs h
  rw [if_neg h7]
  by_cases h8 : keyMatches key DefaultKeyMap.Tab = true
  · rw [if_pos h8]
    exact cursorInv_of_frame a _ (cycleFocus_cursor_frame a true).1
      (cycleFocus_cursor_frame a true).2.1 (cycleFocus_cursor_frame a true).2.2.1
      (cycleFocus_cursor_frame a true).2.2.2 h
  rw [if_neg h8]
  by_cases h9 : keyMatches key DefaultKeyMap.ShiftTab = true
  · rw [if_pos h9]
    exact cursorInv_of_frame a _ (cycleFocus_cursor_frame a false).1
      (cycleFocus_cursor_frame a false).2.1 (cycleFocus_cursor_frame a false).2.2.1
      (cycleFocus_cursor_frame a false).2.2.2 h
  rw [if_neg h9]
  by_cases h10 : keyMatches key DefaultKeyMap.Yank = true
  · rw [if_pos h10]
    exact cursorInv_of_frame a _ (by rw [(handleYank_frame env a).1])
      (by rw [(handleYank_frame env a).1]) (by rw [handleYank_commitList])
      (by rw [handleYank_commitList]) h
  rw [if_neg h10]
  by_cases h11 : keyMatches key DefaultKeyMap.OpenEditor = true
  · rw [if_pos h11]
    rw [handleOpenEditor_frame]
    exact h
  rw [if_neg h11]
  have hd := delegateToFocused_frame a (Msg.KeyMsg key)
  exact cursorInv_of_frame a _ (by rw [hd.1]) (by rw [hd.1])
    (by rw [delegateToFocused_commitList]) (by rw [delegateToFocused_commitList]) h

theorem handleModalKey_cursorInv (a : App W) (key : String) (h : a.cursorInv) :
    (a.handleModalKey key).1.cursorInv := by
  unfold App.handleModalKey
  by_cases h0 : keyMatches key DefaultKeyMap.Quit = true
  · rw [if_pos h0]
    exact h
  rw [if_neg h0]
  split
  · exact cursorInv_of_frame a _ rfl rfl rfl rfl h
  · exact h

theorem setFiles_cursor (s : State) (fs : List FileStatus) (h : 0 ≤ s.SelectedIndex) :
    0 ≤ (s.SetFiles fs).SelectedIndex
    ∧ ((s.SetFiles fs).Files ≠ [] →
        (s.SetFiles fs).SelectedIndex < (s.SetFiles fs).Files.length) := by
  rw [setFiles_files]
  unfold State.SetFiles
  dsimp only
  split
  · exact ⟨le_refl 0, fun hne => length_pos_int fs hne⟩
  · refine ⟨h, fun _ => ?_⟩
    show s.SelectedIndex < _
    omega

theorem setCommits_cursor (c : CommitList) (cs : List Commit) (h : 0 ≤ c.cursor) :
    (c.SetCommits cs).commits = cs
    ∧ 0 ≤ (c.SetCommits cs).cursor
    ∧ ((c.SetCommits cs).commits ≠ [] →
        (c.SetCommits cs).cursor < (c.SetCommits cs).commits.length) := by
  have hcs : (c.SetCommits cs).commits = cs := by
    unfold CommitList.SetCommits
    dsimp only
    split <;> rfl
  refine ⟨hcs, ?_⟩
  rw [hcs]
  unfold CommitList.SetCommits
  dsimp only
  split
  · exact ⟨le_refl 0, fun hne => length_pos_int cs hne⟩
  · refine ⟨h, fun _ => ?_⟩
    show c.cursor < _
    omega

theorem update_cursorInv (env : Env) (a : App W) (msg : Msg) (h : a.cursorInv) :
    (a.Update env msg).1.cursorInv := by
  cases msg with
  | WindowSizeMsg width height => exact cursorInv_of_frame a _ rfl rfl rfl rfl h
  | KeyMsg key =>
    unfold App.Update
    dsimp only
    split
    · exact handleModalKey_cursorInv a key h
    · exact handleKey_cursorInv env a key h
  | FileSelectedMsg path => exact cursorInv_of_frame a _ rfl rfl rfl rfl h
  | FolderSelectedMsg path children => exact cursorInv_of_frame a _ rfl rfl rfl rfl h
  | CommitSelectedMsg commit =>
    refine cursorInv_of_frame a _ ?_ ?_ ?_ ?_ h
    · show (App.updatePreview _).state.Files = _
      rw [updatePreview_state]
    · show (App.updatePreview _).state.SelectedIndex = _
      rw [updatePreview_state]
    · show (App.updatePreview _).commitList.commits = _
      rw [updatePreview_commitList]
    · show (App.updatePreview _).commitList.cursor = _
      rw [updatePreview_commitList]
  | FilesLoadedMsg files =>
    have hs := setFiles_cursor a.state files h.1
    exact ⟨hs.1, hs.2, h.2.2.1, h.2.2.2⟩
  | ContentLoadedMsg content =>
    refine cursorInv_of_frame a _ ?_ ?_ ?_ ?_ h
    · show (App.updatePreview _).state.Files = _
      rw [updatePreview_state]
    · show (App.updatePreview _).state.SelectedIndex = _
      rw [updatePreview_state]
    · show (App.updatePreview _).commitList.commits = _
      rw [updatePreview_commitList]
    · show (App.updatePreview _).commitList.cursor = _
      rw [updatePreview_commitList]
  | CommitsLoadedMsg commits =>
    have hc := setCommits_cursor a.commitList commits h.2.2.1
    exact ⟨h.1, h.2.1, hc.2.1, hc.2.2⟩
  | BranchInfoMsg branch baseBranch => exact cursorInv_of_frame a _ rfl rfl rfl rfl h
  | DiffStatsMsg added removed => exact cursorInv_of_frame a _ rfl rfl rfl rfl h
  | PRLoadedMsg pr err =>
    cases err with
    | none => exact cursorInv_of_frame a _ rfl rfl rfl rfl h
    | some e => exact cursorInv_of_frame a _ rfl rfl rfl rfl h
  | ErrorMsg err => exact cursorInv_of_frame a _ rfl rfl rfl rfl h
  | RefreshMsg => exact h
  | GitChangedMsg => exact h
  | PRPollTickMsg => exact h
  | QuitMsg => exact h

theorem run_cursorInv (steps : List (Env × Msg)) :
    ∀ a : App W, a.cursorInv → (a.run steps).cursorInv := by
  induction steps with
  | nil => intro a h; exact h
  | cons step rest ih =>
    intro a h
    exact ih _ (update_cursorInv step.1 a step.2 h)

theorem new_cursorInv (fileList : W.FileList) (diffView : W.DiffView)
    (fileView : W.FileView) (layout : W.Layout) :
    (New W fileList diffView fileView layout).cursorInv :=
  ⟨le_refl 0, fun hne => absurd rfl hne, le_refl 0, fun hne => absurd rfl hne⟩

/-- C21: for every state with `SelectedIndex ≥ 0` and every file list `fs`,
after `SetFiles fs` the field `Files` is `fs`, `SelectedIndex` is its old value
when that is below the length of `fs` and `0` otherwise, so it is a valid index
into `Files` whenever `Files` is non-empty, and every other field of the state
is unchanged. `CommitList.SetCommits` does the same for the commit list: with
a cursor `≥ 0` before, the commits are the given ones, the cursor is its old
value when below the length and `0` otherwise, hence a valid index whenever the
list is non-empty, and the other fields are unchanged. In every state reached
from the application that `New` builds, both cursors are `≥ 0` and within
their lists whenever these are non-empty. -/
theorem setFiles_index_in_range (s : State) (fs : List FileStatus)
    (h : 0 ≤ s.SelectedIndex) :
    (s.SetFiles fs).Files = fs
    ∧ (s.SelectedIndex < fs.length → (s.SetFiles fs).SelectedIndex = s.SelectedIndex)
    ∧ (¬ s.SelectedIndex < fs.length → (s.SetFiles fs).SelectedIndex = 0)
    ∧ 0 ≤ (s.SetFiles fs).SelectedIndex
    ∧ ((s.SetFiles fs).Files ≠ [] →
        (s.SetFiles fs).SelectedIndex < (s.SetFiles fs).Files.length)
    ∧ s.SetFiles fs
        = { s with Files := fs, SelectedIndex := (s.SetFiles fs).SelectedIndex }
    ∧ (∀ (c : CommitList) (cs : List Commit), 0 ≤ c.cursor →
        (c.SetCommits cs).commits = cs
        ∧ (c.cursor < cs.length → (c.SetCommits cs).cursor = c.cursor)
        ∧ (¬ c.cursor < cs.length → (c.SetCommits cs).cursor = 0)
        ∧ 0 ≤ (c.SetCommits cs).cursor
        ∧ ((c.SetCommits cs).commits ≠ [] →
            (c.SetCommits cs).cursor < (c.SetCommits cs).commits.length)
        ∧ c.SetCommits cs
            = { c with commits := cs, cursor := (c.SetCommits cs).cursor })
    ∧ (∀ (V : WindowImpl) (fileList : V.FileList) (diffView : V.DiffView)
        (fileView : V.FileView) (layout : V.Layout) (steps : List (Env × Msg)),
        ((New V fileList diffView fileView layout).run steps).cursorInv) := by
  have hfiles : ∀ l : List FileStatus, l ≠ [] → (0 : Int) < l.length := by
    intro l hl
    have : 0 < l.length := List.length_pos.mpr hl
    omega
  have hcommits : ∀ l : List Commit, l ≠ [] → (0 : Int) < l.length := by
    intro l hl
    have : 0 < l.length := List.length_pos.mpr hl
    omega
  refine ⟨setFiles_files s fs, ?_, ?_, ?_, ?_, ?_, ?_,
    fun V fileList diffView fileView layout steps =>
      run_cursorInv steps _ (new_cursorInv fileList diffView fileView layout)⟩
  · intro hlt
    unfold State.SetFiles
    dsimp only
    rw [if_neg (by omega)]
  · intro hge
    unfold State.SetFiles
    dsimp only
    rw [if_pos (by omega)]
  · unfold State.SetFiles
    dsimp only
    split
    · exact le_refl 0
    · exact h
  · rw [setFiles_files]
    intro hne
    have hpos := hfiles fs hne
    unfold State.SetFiles
    dsimp only
    split
    · exact hpos
    · show s.SelectedIndex < _
      omega
  · unfold State.SetFiles
    dsimp only
    split <;> rfl
  · intro c cs hc
    have hcs : (c.SetCommits cs).commits = cs := by
      unfold CommitList.SetCommits
      dsimp only
      split <;> rfl
    refine ⟨hcs, ?_, ?_, ?_, ?_, ?_⟩
    · intro hlt
      unfold CommitList.SetCommits
      dsimp only
      rw [if_neg (by omega)]
    · intro hge
      unfold CommitList.SetCommits
      dsimp only
      rw [if_pos (by omega)]
    · unfold CommitList.SetCommits
      dsimp only
      split
      · exact le_refl 0
      · exact hc
    · rw [hcs]
      intro hne
      have hpos := hcommits cs hne
      unfold CommitList.SetCommits
      dsimp only
      split
      · exact hpos
      · show c.cursor < _
        omega
    · unfold CommitList.SetCommits
      dsimp only
      split <;> rfl

/-- C21, instance: with the cursor at index 2, a list of three files keeps the
cursor at 2, and a list of one file puts it back to 0. -/
theorem setFiles_index_in_range_witness :
    0 ≤ cursorTwoState.SelectedIndex
    ∧ (cursorTwoState.SetFiles threeFiles).Files = threeFiles
    ∧ cursorTwoState.SelectedIndex < threeFiles.length
    ∧ (cursorTwoState.SetFiles threeFiles).SelectedIndex = cursorTwoState.SelectedIndex
    ∧ ¬ cursorTwoState.SelectedIndex < (threeFiles.take 1).length
    ∧ (cursorTwoState.SetFiles (threeFiles.take 1)).SelectedIndex = 0 :=
  ⟨by decide,
   (setFiles_index_in_range cursorTwoState threeFiles (by decide)).1,
   by decide,
   (setFiles_index_in_range cursorTwoState threeFiles (by decide)).2.1 (by decide),
   by decide,
   (setFiles_index_in_range cursorTwoState (threeFiles.take 1) (by decide)).2.2.1
     (by decide)⟩

end Kimchi
